import Mathlib

/-!
# traefik-error-page: the response interceptor `CodeCatcher`

A shallow embedding of `helpers/code_catcher.go` and of the configuration,
construction, query rendering and relay code of `traefik_error_page.go`.  The wrapped
`http.ResponseWriter` (the real sink) is modelled as a recording object: its
header map, the ordered list of the calls it received, whether it implements
`http.Flusher`, and the result its `Write` reports.  Every method of
`CodeCatcher` becomes a function from the catcher (which owns its sink) to the
updated catcher, plus the returned value for `Write`.
-/

namespace Helpers

/-! ## Data model -/

/-- A Go byte slice (and a Go string, which is a byte sequence). -/
abbrev Bytes := List UInt8

/-- The Go type http.Header, a map from header name to its ordered values;
a key absent from the map answers none. -/
abbrev Header := String → Option (List String)

/-- The result of make(http.Header): no key is present. -/
def emptyHeader : Header := fun _ => none

/-- The loop "for k, v := range src { dst[k] = v }": every key present in src
is assigned (replacing what dst held), every other key of dst is kept. -/
def copyHeader (src dst : Header) : Header :=
  fun k => match src k with
    | some v => some v
    | none => dst k

/-- Modelled from the spec: the type HTTPCodeRanges is declared in a file of
package helpers that is not part of the sources; the spec describes it as a
sequence of (low, high) pairs of inclusive integer bounds, and the code reads
block[0] and block[1] of each element. -/
abbrev HTTPCodeRanges := List (Int × Int)

/-- A Go error value; nil is none. -/
abbrev Error := Option String

/-- One call received by the real sink. -/
inductive SinkCall where
  | writeHeader (code : Int)
  | write (buf : Bytes)
  | flush
deriving DecidableEq, Repr

/-- The real sink (an http.ResponseWriter).  The field calls records, oldest
first, what the sink was asked to do; writeResult is what its Write answers,
given the sink's header map, the calls so far and the buffer. -/
structure ResponseWriter where
  header : Header
  calls : List SinkCall
  isFlusher : Bool
  writeResult : Header → List SinkCall → Bytes → Int × Error

/-- The call rw.WriteHeader(code) on the real sink. -/
def ResponseWriter.WriteHeader (rw : ResponseWriter) (code : Int) : ResponseWriter :=
  { rw with calls := rw.calls ++ [SinkCall.writeHeader code] }

/-- The call rw.Write(buf) on the real sink, with its returned pair. -/
def ResponseWriter.Write (rw : ResponseWriter) (buf : Bytes) : ResponseWriter × (Int × Error) :=
  ({ rw with calls := rw.calls ++ [SinkCall.write buf] }, rw.writeResult rw.header rw.calls buf)

/-- The call flusher.Flush() on the real sink. -/
def ResponseWriter.Flush (rw : ResponseWriter) : ResponseWriter :=
  { rw with calls := rw.calls ++ [SinkCall.flush] }

/-- The struct CodeCatcher. -/
structure CodeCatcher where
  headerMap : Header
  code : Int
  httpCodeRanges : HTTPCodeRanges
  caughtFilteredCode : Bool
  caughtUnmatchingBody : Bool
  responseWriter : ResponseWriter
  headersSent : Bool
  contentsOnly : Bool
  contentsOnlyMatch : Bytes

/-- The constructor NewCodeCatcher. -/
def NewCodeCatcher (rw : ResponseWriter) (httpCodeRanges : HTTPCodeRanges)
    (contentsOnly : Bool) (contentsOnlyMatch : Bytes) : CodeCatcher :=
  { headerMap := emptyHeader
    code := 200
    httpCodeRanges := httpCodeRanges
    caughtFilteredCode := false
    caughtUnmatchingBody := false
    responseWriter := rw
    headersSent := false
    contentsOnly := contentsOnly
    contentsOnlyMatch := contentsOnlyMatch }

namespace CodeCatcher

/-- The method Header: the sink's live header map once headers are sent, the
staged map before. -/
def Header (cc : CodeCatcher) : Helpers.Header :=
  if cc.headersSent then cc.responseWriter.header else cc.headerMap

/-- A mutation f applied by the backend to the map that Header() returned: it
lands in the sink's map once headers are sent, in the staged map before. -/
def mutateHeader (cc : CodeCatcher) (f : Helpers.Header → Helpers.Header) : CodeCatcher :=
  if cc.headersSent then
    { cc with responseWriter := { cc.responseWriter with header := f cc.responseWriter.header } }
  else
    { cc with headerMap := f cc.headerMap }

/-- The method GetCode. -/
def GetCode (cc : CodeCatcher) : Int := cc.code

/-- The method IsFilteredCode. -/
def IsFilteredCode (cc : CodeCatcher) : Bool := cc.caughtFilteredCode

/-- The method IsMatchingBody. -/
def IsMatchingBody (cc : CodeCatcher) : Bool :=
  !cc.contentsOnly || !cc.caughtUnmatchingBody

/-- The loop of WriteHeader over the configured blocks: true as soon as one
block has block[0] ≤ code ≤ block[1]. -/
def inRanges : HTTPCodeRanges → Int → Bool
  | [], _ => false
  | block :: rest, code =>
    if code ≥ block.1 && code ≤ block.2 then true else inRanges rest code

/-- The statements "for k, v := range cc.Header() { cc.responseWriter.Header()[k] = v }". -/
def copyToSink (cc : CodeCatcher) : ResponseWriter :=
  { cc.responseWriter with header := copyHeader cc.Header cc.responseWriter.header }

/-- The method WriteHeader. -/
def WriteHeader (cc : CodeCatcher) (code : Int) : CodeCatcher :=
  if cc.headersSent || (cc.caughtFilteredCode && !cc.contentsOnly) then
    cc
  else if code ≥ 100 && code ≤ 199 then
    { cc with responseWriter := cc.copyToSink.WriteHeader code }
  else
    let cc1 := { cc with code := code }
    if inRanges cc1.httpCodeRanges cc1.code then
      { cc1 with caughtFilteredCode := true }
    else
      { cc1 with responseWriter := cc1.copyToSink.WriteHeader cc1.code, headersSent := true }

/-- The method Write, returning the updated catcher and the pair (n, err). -/
def Write (cc : CodeCatcher) (buf : Bytes) : CodeCatcher × (Int × Error) :=
  let cc1 := cc.WriteHeader cc.code
  if cc1.caughtFilteredCode && !cc1.contentsOnly then
    (cc1, ((buf.length : Int), none))
  else
    let cc2 :=
      if !cc1.caughtUnmatchingBody && !cc1.headersSent then
        { cc1 with responseWriter := cc1.copyToSink.WriteHeader cc1.code, headersSent := true }
      else cc1
    if cc2.contentsOnly then
      if buf ≠ cc2.contentsOnlyMatch then
        let cc3 := { cc2 with caughtUnmatchingBody := true }
        let r := cc3.responseWriter.Write buf
        ({ cc3 with responseWriter := r.1 }, r.2)
      else
        (cc2, ((buf.length : Int), none))
    else
      let r := cc2.responseWriter.Write buf
      ({ cc2 with responseWriter := r.1 }, r.2)

/-- The method Flush. -/
def Flush (cc : CodeCatcher) : CodeCatcher :=
  let cc1 := cc.WriteHeader cc.code
  if cc1.caughtFilteredCode then
    cc1
  else if cc1.responseWriter.isFlusher then
    { cc1 with responseWriter := cc1.responseWriter.Flush }
  else
    cc1

end CodeCatcher

/-! ## Call sequences made by the backend -/

/-- One call of the backend on the catcher: WriteHeader, Write, Flush, or a
mutation of the map returned by Header().  Hijack is left out: it reads and
writes no field of the catcher and hands the connection itself to the caller. -/
inductive Op where
  | writeHeader (code : Int)
  | write (buf : Bytes)
  | flush
  | header (f : Header → Header)

/-- The catcher after one call. -/
def step (cc : CodeCatcher) : Op → CodeCatcher
  | Op.writeHeader code => cc.WriteHeader code
  | Op.write buf => (cc.Write buf).1
  | Op.flush => cc.Flush
  | Op.header f => cc.mutateHeader f

/-- The catcher after a sequence of calls, first call first. -/
def run (cc : CodeCatcher) : List Op → CodeCatcher
  | [] => cc
  | op :: ops => run (step cc op) ops

/-- The pairs returned by the Write calls of a sequence, in order. -/
def writeResults (cc : CodeCatcher) : List Op → List (Int × Error)
  | [] => []
  | Op.write buf :: ops => (cc.Write buf).2 :: writeResults (cc.Write buf).1 ops
  | op :: ops => writeResults (step cc op) ops

/-- The body bytes a list of sink calls carries, in order. -/
def bodyOf : List SinkCall → Bytes
  | [] => []
  | SinkCall.write buf :: cs => buf ++ bodyOf cs
  | _ :: cs => bodyOf cs

/-- The status codes a list of sink calls commits, in order. -/
def statusesOf : List SinkCall → List Int
  | [] => []
  | SinkCall.writeHeader code :: cs => code :: statusesOf cs
  | _ :: cs => statusesOf cs

/-- The number of flushes in a list of sink calls. -/
def flushesOf : List SinkCall → Nat
  | [] => 0
  | SinkCall.flush :: cs => flushesOf cs + 1
  | _ :: cs => flushesOf cs

/-- A sink that has received nothing yet and reports every write as complete. -/
def idleSink : ResponseWriter :=
  { header := emptyHeader
    calls := []
    isFlusher := true
    writeResult := fun _ _ buf => ((buf.length : Int), none) }

/-- The pairs (len(buf), nil), one for each Write of a call sequence. -/
def allWritten : List Op → List (Int × Error)
  | [] => []
  | Op.write buf :: ops => ((buf.length : Int), none) :: allWritten ops
  | _ :: ops => allWritten ops

/-- A fresh catcher on which the backend has staged the headers H through
Header(), before any other call. -/
def staged (rw : ResponseWriter) (R : HTTPCodeRanges) (contentsOnly : Bool)
    (contentsOnlyMatch : Bytes) (H : Header) : CodeCatcher :=
  (NewCodeCatcher rw R contentsOnly contentsOnlyMatch).mutateHeader (fun _ => H)

/-- The part of the catcher state that decides whether a filtered code is
still the recorded one: the recorded code is never informational, and while
nothing is committed a raised filtered flag means the recorded code lies in a
configured range. -/
def Undecided (cc : CodeCatcher) : Prop :=
  ¬ (100 ≤ cc.code ∧ cc.code ≤ 199) ∧
  (cc.caughtFilteredCode = true → cc.headersSent = false →
    CodeCatcher.inRanges cc.httpCodeRanges cc.code = true)

/-- What the real sink rw0 can have received from a catcher built over it:
while nothing is committed the sink is as it was and no mismatch is recorded;
with gating disabled a filtered code is never committed; and a filtered code
whose body gate has not failed has sent no body byte and no flush. -/
def Clean (rw0 : ResponseWriter) (cc : CodeCatcher) : Prop :=
  (cc.headersSent = false → cc.responseWriter = rw0 ∧ cc.caughtUnmatchingBody = false) ∧
  (cc.contentsOnly = false → cc.caughtFilteredCode = true → cc.headersSent = false) ∧
  (cc.caughtFilteredCode = true → cc.IsMatchingBody = true →
    bodyOf cc.responseWriter.calls = bodyOf rw0.calls ∧
    flushesOf cc.responseWriter.calls = flushesOf rw0.calls)

/-- The count of status commits with a code outside 100..199 in a list of
sink calls. -/
def terminalCount : List SinkCall → Nat
  | [] => 0
  | SinkCall.writeHeader code :: cs =>
    if 100 ≤ code ∧ code ≤ 199 then terminalCount cs else terminalCount cs + 1
  | _ :: cs => terminalCount cs

/-- Whether every write call of a list of sink calls comes after a status
commit with a code outside 100..199; seen tells that one came before the list. -/
def committedBeforeBody : Bool → List SinkCall → Bool
  | _, [] => true
  | seen, SinkCall.writeHeader code :: cs =>
    committedBeforeBody (seen || !(decide (100 ≤ code ∧ code ≤ 199))) cs
  | seen, SinkCall.write _ :: cs => seen && committedBeforeBody seen cs
  | seen, SinkCall.flush :: cs => committedBeforeBody seen cs

/-- The calls the sink has received since the catcher was built over rw0. -/
def emitted (rw0 : ResponseWriter) (cc : CodeCatcher) : List SinkCall :=
  cc.responseWriter.calls.drop rw0.calls.length

/-- What the catcher has sent to the sink rw0 it was built over: the sink's
record only grew, it holds one status commit outside 100..199 exactly when
headers are sent, every write comes after that commit, no mismatch is recorded
before headers are sent, and the recorded code is outside 100..199. -/
def Traced (rw0 : ResponseWriter) (cc : CodeCatcher) : Prop :=
  rw0.calls.length ≤ cc.responseWriter.calls.length ∧
  terminalCount (emitted rw0 cc) = (if cc.headersSent then 1 else 0) ∧
  committedBeforeBody false (emitted rw0 cc) = true ∧
  (cc.headersSent = false → cc.caughtUnmatchingBody = false) ∧
  ¬ (100 ≤ cc.code ∧ cc.code ≤ 199)

end Helpers

/-! ## The plugin package: configuration, construction, query rendering -/

namespace TraefikErrorPage

open Helpers

/-- The bytes of a Go string given as text (its UTF-8 encoding). -/
def bytesOf (s : String) : Bytes := s.data.flatMap String.utf8EncodeChar

/-- The Go built-in len on a string: its number of bytes. -/
def len (s : String) : Nat := (bytesOf s).length

/-- The struct Config. -/
structure Config where
  Status : List String
  Service : String
  Query : String
  ContentsOnly : Bool
  ContentsOnlyMatch : String
  Debug : Bool

/-- The function CreateConfig. -/
def CreateConfig : Config :=
  { Status := []
    Service := ""
    Query := "/{StatusCode}.html"
    ContentsOnly := true
    ContentsOnlyMatch := ""
    Debug := false }

/-- The struct ErrorPage; Handler is the type of the wrapped http.Handler. -/
structure ErrorPage (Handler : Type) where
  next : Handler
  httpStatusRanges : HTTPCodeRanges
  service : String
  query : String
  name : String
  contentsOnly : Bool
  contentsOnlyMatch : String
  debug : Bool

/-- The function New.  The helper NewHTTPCodeRanges, whose file is not part of
the sources, is taken as the parameter parseRanges. -/
def New {Handler : Type} (parseRanges : List String → Except String HTTPCodeRanges)
    (next : Handler) (config : Config) (name : String) : Except String (ErrorPage Handler) :=
  if config.Status.length = 0 then
    Except.error "status cannot be empty"
  else if len config.Service = 0 then
    Except.error "service cannot be empty"
  else
    match parseRanges config.Status with
    | Except.error err => Except.error err
    | Except.ok httpStatusRanges =>
      Except.ok
        { httpStatusRanges := httpStatusRanges
          service := config.Service
          query := config.Query
          contentsOnly := config.ContentsOnly
          contentsOnlyMatch := config.ContentsOnlyMatch
          debug := config.Debug
          next := next
          name := name }

/-! ### The standard-library string functions used by parseQuery -/

/-- The scan of strings.ReplaceAll over the characters of the input: skip counts
the characters of a match still to be passed over.  Matches are taken leftmost
and do not overlap; an empty old matches before every character and at the end. -/
def replaceAux (old new : List Char) : Nat → List Char → List Char
  | _, [] => if old.isEmpty then new else []
  | skip + 1, _ :: cs => replaceAux old new skip cs
  | 0, c :: cs =>
    if old.isEmpty then new ++ c :: replaceAux old new 0 cs
    else if old.isPrefixOf (c :: cs) then new ++ replaceAux old new (old.length - 1) cs
    else c :: replaceAux old new 0 cs

/-- The function strings.ReplaceAll. -/
def ReplaceAll (s old new : String) : String :=
  String.mk (replaceAux old.data new.data 0 s.data)

/-- The function strings.TrimPrefix. -/
def TrimPrefix (s pre : String) : String :=
  if pre.data.isPrefixOf s.data then String.mk (s.data.drop pre.data.length) else s

/-- The function strconv.Itoa: the decimal digits, after a minus sign for a
negative number. -/
def Itoa : Int → String
  | Int.ofNat n => Nat.repr n
  | Int.negSucc n => "-" ++ Nat.repr (n + 1)

/-- The character of url.QueryEscape for a hexadecimal digit below 16. -/
def upperhex (n : Nat) : Char := ("0123456789ABCDEF".data).getD n '0'

/-- The bytes url.QueryEscape leaves as they are: ASCII letters and digits and
the marks - _ . and ~. -/
def unreserved (b : UInt8) : Bool :=
  (97 ≤ b.toNat && b.toNat ≤ 122) || (65 ≤ b.toNat && b.toNat ≤ 90) ||
  (48 ≤ b.toNat && b.toNat ≤ 57) ||
  b.toNat = 45 || b.toNat = 95 || b.toNat = 46 || b.toNat = 126

/-- The function url.QueryEscape: a space becomes +, every other byte that is
not left as it is becomes % followed by its two hexadecimal digits. -/
def QueryEscape (s : String) : String :=
  String.mk ((bytesOf s).flatMap fun b =>
    if b.toNat = 32 then ['+']
    else if unreserved b then [Char.ofNat b.toNat]
    else ['%', upperhex (b.toNat / 16), upperhex (b.toNat % 16)])

/-- The method parseQuery. -/
def ErrorPage.parseQuery {Handler : Type} (ep : ErrorPage Handler) (code : Int)
    (requestURL : String) : String :=
  let query := "/" ++ TrimPrefix ep.query "/"
  let query := ReplaceAll query "{status}" (Itoa code)
  let query := ReplaceAll query "{url}" (QueryEscape requestURL)
  query

/-- The words of the specification for the rendered path, on characters: going
through the text once, every occurrence of {status} becomes the decimal status
code and every occurrence of {url} becomes the escaped request URL. -/
def substituteAux (status url : List Char) : Nat → List Char → List Char
  | _, [] => []
  | skip + 1, _ :: cs => substituteAux status url skip cs
  | 0, c :: cs =>
    if "{status}".data.isPrefixOf (c :: cs) then status ++ substituteAux status url 7 cs
    else if "{url}".data.isPrefixOf (c :: cs) then url ++ substituteAux status url 4 cs
    else c :: substituteAux status url 0 cs

/-- The rendered path in the words of the specification: the template with a
leading "/" put in front when it has none, then every placeholder substituted. -/
def renderedPath (template : String) (code : Int) (requestURL : String) : String :=
  String.mk (substituteAux (Itoa code).data (QueryEscape requestURL).data 0
    (if "/".data.isPrefixOf template.data then template.data else '/' :: template.data))

/-! ### The relay of the substitute page -/

/-- The *http.Response given back by the client: the chunks its Body yields
until the end of the stream. -/
structure Response where
  Body : List Bytes

/-- How a call of handleInService ends: it returns, or it panics on a nil
pointer; either way with the sink as the call left it. -/
inductive Outcome where
  | returned (rw : ResponseWriter)
  | nilPointerPanic (rw : ResponseWriter)

/-- The assignment h[key] = values on a header map. -/
def setHeader (h : Header) (key : String) (values : List String) : Header :=
  fun k => if k = key then some values else h k

/-- The method Header.Add(key, value), key already in canonical form. -/
def addHeader (h : Header) (key : String) (value : String) : Header :=
  setHeader h key ((h key).getD [] ++ [value])

/-- The method Header.Del(key), key already in canonical form. -/
def delHeader (h : Header) (key : String) : Header :=
  fun k => if k = key then none else h k

/-- The standard-library function http.Error: it deletes the Content-Length
header, sets the content type headers, commits the status and writes the
message followed by a newline. -/
def httpError (rw : ResponseWriter) (error : String) (code : Int) : ResponseWriter :=
  let h := delHeader rw.header "Content-Length"
  let h := setHeader h "Content-Type" ["text/plain; charset=utf-8"]
  let h := setHeader h "X-Content-Type-Options" ["nosniff"]
  (ResponseWriter.Write (ResponseWriter.WriteHeader { rw with header := h } code)
    (bytesOf error ++ bytesOf "\n")).1

/-- The standard-library function io.Copy from a response body to the sink:
each chunk a read yields is written in turn, a read of zero bytes writes
nothing, and the copy stops at the first write that reports an error or fewer
bytes than it was given. -/
def ioCopy (rw : ResponseWriter) : List Bytes → ResponseWriter
  | [] => rw
  | chunk :: rest =>
    if chunk.isEmpty then ioCopy rw rest
    else
      let r := rw.Write chunk
      if r.2.2.isSome || r.2.1 ≠ (chunk.length : Int) then r.1 else ioCopy r.1 rest

/-- The method handleInService.  The pair (res, err) is what
http.DefaultClient.Do(req) gave back; res is none for a nil pointer.  The key
"X-Errorpage" is the canonical form under which Header.Add stores
"X-ErrorPage".  The log lines write to standard output only and are left out. -/
def handleInService (rw : ResponseWriter) (res : Option Response) (err : Option String) :
    Outcome :=
  let rw1 := { rw with header := addHeader rw.header "X-Errorpage" "served" }
  let rw2 :=
    match err with
    | some e => httpError rw1 e 500
    | none => rw1
  match res with
  | none => Outcome.nilPointerPanic rw2
  | some r => Outcome.returned (ioCopy rw2 r.Body)

end TraefikErrorPage

namespace Helpers

/-! ## Basic facts -/

open CodeCatcher

theorem inRanges_iff (R : HTTPCodeRanges) (c : Int) :
    inRanges R c = true ↔ ∃ p ∈ R, p.1 ≤ c ∧ c ≤ p.2 := by
  induction R with
  | nil => simp [inRanges]
  | cons block rest ih =>
    by_cases h : block.1 ≤ c ∧ c ≤ block.2
    · simp [inRanges, h]
    · have h2 : ¬ (block.1 ≤ c ∧ c ≤ block.2) := h
      simp only [inRanges, ge_iff_le, Bool.and_eq_true, decide_eq_true_eq, h, if_false, ih,
        List.mem_cons, exists_eq_or_imp, false_or]

theorem WriteHeader_of_sent (cc : CodeCatcher) (code : Int) (h : cc.headersSent = true) :
    cc.WriteHeader code = cc := by
  simp [WriteHeader, h]

theorem WriteHeader_of_dropping (cc : CodeCatcher) (code : Int)
    (hf : cc.caughtFilteredCode = true) (hc : cc.contentsOnly = false) :
    cc.WriteHeader code = cc := by
  simp [WriteHeader, hf, hc]

theorem Write_of_dropping (cc : CodeCatcher) (buf : Bytes)
    (hf : cc.caughtFilteredCode = true) (hc : cc.contentsOnly = false) :
    cc.Write buf = (cc, ((buf.length : Int), none)) := by
  simp [Write, WriteHeader_of_dropping cc _ hf hc, hf, hc]

theorem Flush_of_dropping (cc : CodeCatcher)
    (hf : cc.caughtFilteredCode = true) (hc : cc.contentsOnly = false) :
    cc.Flush = cc := by
  simp [Flush, WriteHeader_of_dropping cc _ hf hc, hf]

/-- The first non-informational WriteHeader on a staged fresh catcher, when the
code lies in a configured range: only the code and the filtered flag change. -/
theorem staged_WriteHeader_filtered (rw : ResponseWriter) (R : HTTPCodeRanges) (co : Bool)
    (m : Bytes) (H : Header) (c : Int) (hc : ¬ (100 ≤ c ∧ c ≤ 199))
    (hR : inRanges R c = true) :
    (staged rw R co m H).WriteHeader c =
      { staged rw R co m H with code := c, caughtFilteredCode := true } := by
  have h1 : (decide (c ≥ 100) && decide (c ≤ 199)) = false := by
    simpa using hc
  simp [staged, NewCodeCatcher, mutateHeader, WriteHeader, h1, hR]

/-- The first non-informational WriteHeader on a staged fresh catcher, when the
code lies in no configured range: headers and status are committed. -/
theorem staged_WriteHeader_unfiltered (rw : ResponseWriter) (R : HTTPCodeRanges) (co : Bool)
    (m : Bytes) (H : Header) (c : Int) (hc : ¬ (100 ≤ c ∧ c ≤ 199))
    (hR : inRanges R c = false) :
    (staged rw R co m H).WriteHeader c =
      { staged rw R co m H with
        code := c
        responseWriter :=
          ResponseWriter.WriteHeader { rw with header := copyHeader H rw.header } c
        headersSent := true } := by
  have h1 : (decide (c ≥ 100) && decide (c ≤ 199)) = false := by
    simpa using hc
  simp [staged, NewCodeCatcher, mutateHeader, WriteHeader, h1, hR, copyToSink, CodeCatcher.Header]

/-- While a catcher drops (filtered code, gating disabled, nothing committed),
every call leaves it dropping and leaves the sink alone. -/
theorem step_dropping (cc : CodeCatcher) (op : Op)
    (hf : cc.caughtFilteredCode = true) (hc : cc.contentsOnly = false)
    (hs : cc.headersSent = false) :
    (step cc op).caughtFilteredCode = true ∧ (step cc op).contentsOnly = false ∧
      (step cc op).headersSent = false ∧ (step cc op).responseWriter = cc.responseWriter := by
  cases op with
  | writeHeader code => simp [step, WriteHeader_of_dropping cc _ hf hc, hf, hc, hs]
  | write buf => simp [step, Write_of_dropping cc _ hf hc, hf, hc, hs]
  | flush => simp [step, Flush_of_dropping cc hf hc, hf, hc, hs]
  | header f => simp [step, mutateHeader, hs, hf, hc]

theorem run_dropping (ops : List Op) : ∀ (cc : CodeCatcher),
    cc.caughtFilteredCode = true → cc.contentsOnly = false → cc.headersSent = false →
    (run cc ops).caughtFilteredCode = true ∧ (run cc ops).contentsOnly = false ∧
      (run cc ops).headersSent = false ∧ (run cc ops).responseWriter = cc.responseWriter ∧
      writeResults cc ops = allWritten ops := by
  induction ops with
  | nil => intro cc hf hc hs; simp [run, writeResults, allWritten, hf, hc, hs]
  | cons op ops ih =>
    intro cc hf hc hs
    obtain ⟨h1, h2, h3, h4⟩ := step_dropping cc op hf hc hs
    obtain ⟨i1, i2, i3, i4, i5⟩ := ih (step cc op) h1 h2 h3
    refine ⟨i1, i2, i3, i4.trans h4, ?_⟩
    cases op with
    | write buf =>
      have hw : (cc.Write buf).1 = step cc (Op.write buf) := rfl
      simp only [writeResults, allWritten, hw, i5]
      simp [Write_of_dropping cc _ hf hc]
    | writeHeader code => simpa [writeResults, allWritten] using i5
    | flush => simpa [writeResults, allWritten] using i5
    | header f => simpa [writeResults, allWritten] using i5

/-- Resolving the recorded code a second time changes nothing, as long as the
code written is not informational. -/
theorem WriteHeader_again (cc : CodeCatcher) (c : Int) (hc : ¬ (100 ≤ c ∧ c ≤ 199)) :
    (cc.WriteHeader c).WriteHeader (cc.WriteHeader c).code = cc.WriteHeader c := by
  have h1 : (decide (c ≥ 100) && decide (c ≤ 199)) = false := by
    simpa using hc
  by_cases hg : (cc.headersSent || (cc.caughtFilteredCode && !cc.contentsOnly)) = true
  · have e : cc.WriteHeader c = cc := by simp only [WriteHeader, hg, if_true]
    rw [e]
    simp only [WriteHeader, hg, if_true]
  · cases hR : inRanges cc.httpCodeRanges c
    · have e : (cc.WriteHeader c).headersSent = true := by
        simp [WriteHeader, hg, h1, hR]
      exact WriteHeader_of_sent _ _ e
    · have e : cc.WriteHeader c = { cc with code := c, caughtFilteredCode := true } := by
        simp [WriteHeader, hg, h1, hR]
      rw [e]
      simp only [WriteHeader, h1, hR]
      split <;> simp

/-- What a WriteHeader call can do: nothing (guard), an informational relay,
a filtering decision, or a commit of headers and status. -/
theorem WriteHeader_cases (cc : CodeCatcher) (code : Int) :
    cc.WriteHeader code = cc ∨
    (cc.headersSent = false ∧ (100 ≤ code ∧ code ≤ 199) ∧
      cc.WriteHeader code = { cc with responseWriter := cc.copyToSink.WriteHeader code }) ∨
    (cc.headersSent = false ∧ ¬ (100 ≤ code ∧ code ≤ 199) ∧
      inRanges cc.httpCodeRanges code = true ∧
      cc.WriteHeader code = { cc with code := code, caughtFilteredCode := true }) ∨
    (cc.headersSent = false ∧ (cc.caughtFilteredCode = true → cc.contentsOnly = true) ∧
      ¬ (100 ≤ code ∧ code ≤ 199) ∧ inRanges cc.httpCodeRanges code = false ∧
      cc.WriteHeader code =
        { cc with
          code := code
          responseWriter :=
            ResponseWriter.WriteHeader
              { cc.responseWriter with header := copyHeader cc.headerMap cc.responseWriter.header }
              code
          headersSent := true }) := by
  obtain ⟨hm, code0, R, filt, unm, rw, sent, co, m⟩ := cc
  by_cases hi : 100 ≤ code ∧ code ≤ 199
  · have h1 : (decide (code ≥ 100) && decide (code ≤ 199)) = true := by simpa using hi
    cases sent <;> cases filt <;> cases co <;> simp [WriteHeader, h1, hi]
  · have h1 : (decide (code ≥ 100) && decide (code ≤ 199)) = false := by simpa using hi
    cases hR : inRanges R code <;> cases sent <;> cases filt <;> cases co <;>
      simp [WriteHeader, h1, hi, hR, copyToSink, CodeCatcher.Header]

theorem Undecided_WriteHeader (cc : CodeCatcher) (code : Int) (h : Undecided cc) :
    Undecided (cc.WriteHeader code) := by
  rcases WriteHeader_cases cc code with e | ⟨_, _, e⟩ | ⟨_, hi, hR, e⟩ | ⟨_, _, hi, _, e⟩
  · rw [e]; exact h
  · rw [e]; exact h
  · rw [e]; exact ⟨hi, fun _ _ => hR⟩
  · rw [e]; exact ⟨hi, fun _ hs => by simp at hs⟩

/-- The fields a Write leaves as its initial WriteHeader(cc.code) left them. -/
theorem Write_frame (cc : CodeCatcher) (buf : Bytes) :
    (cc.Write buf).1.code = (cc.WriteHeader cc.code).code ∧
    (cc.Write buf).1.httpCodeRanges = (cc.WriteHeader cc.code).httpCodeRanges ∧
    (cc.Write buf).1.caughtFilteredCode = (cc.WriteHeader cc.code).caughtFilteredCode ∧
    (cc.Write buf).1.contentsOnly = (cc.WriteHeader cc.code).contentsOnly ∧
    (cc.Write buf).1.contentsOnlyMatch = (cc.WriteHeader cc.code).contentsOnlyMatch ∧
    ((cc.Write buf).1.headersSent = false → (cc.WriteHeader cc.code).headersSent = false) := by
  unfold CodeCatcher.Write
  generalize cc.WriteHeader cc.code = cc1
  obtain ⟨hm, code0, R, filt, unm, rw, sent, co, m⟩ := cc1
  by_cases hb : buf = m <;> cases filt <;> cases co <;> cases unm <;> cases sent <;> simp [hb]

theorem Undecided_Write (cc : CodeCatcher) (buf : Bytes) (h : Undecided cc) :
    Undecided (cc.Write buf).1 := by
  have h1 := Undecided_WriteHeader cc cc.code h
  obtain ⟨e1, e2, e3, _, _, e6⟩ := Write_frame cc buf
  unfold Undecided at *
  rw [e1, e2, e3]
  exact ⟨h1.1, fun hf hs => h1.2 hf (e6 hs)⟩

/-- The fields a Flush leaves as its initial WriteHeader(cc.code) left them. -/
theorem Flush_frame (cc : CodeCatcher) :
    cc.Flush.code = (cc.WriteHeader cc.code).code ∧
    cc.Flush.httpCodeRanges = (cc.WriteHeader cc.code).httpCodeRanges ∧
    cc.Flush.caughtFilteredCode = (cc.WriteHeader cc.code).caughtFilteredCode ∧
    cc.Flush.headersSent = (cc.WriteHeader cc.code).headersSent ∧
    cc.Flush.contentsOnly = (cc.WriteHeader cc.code).contentsOnly ∧
    cc.Flush.caughtUnmatchingBody = (cc.WriteHeader cc.code).caughtUnmatchingBody := by
  unfold CodeCatcher.Flush
  generalize cc.WriteHeader cc.code = cc1
  obtain ⟨hm, code0, R, filt, unm, rw, sent, co, m⟩ := cc1
  cases filt <;> cases h : rw.isFlusher <;> simp [h]

theorem Undecided_step (cc : CodeCatcher) (op : Op) (h : Undecided cc) :
    Undecided (step cc op) := by
  cases op with
  | writeHeader code => exact Undecided_WriteHeader cc code h
  | write buf => exact Undecided_Write cc buf h
  | flush =>
    have h1 := Undecided_WriteHeader cc cc.code h
    obtain ⟨e1, e2, e3, e4, _, _⟩ := Flush_frame cc
    simp only [step]
    unfold Undecided at *
    rw [e1, e2, e3, e4]
    exact h1
  | header f =>
    simp only [step, mutateHeader]
    unfold Undecided at *
    split <;> exact h

theorem Undecided_run (ops : List Op) : ∀ cc : CodeCatcher, Undecided cc → Undecided (run cc ops) := by
  induction ops with
  | nil => intro cc h; exact h
  | cons op ops ih => intro cc h; exact ih _ (Undecided_step cc op h)

theorem Undecided_new (rw : ResponseWriter) (R : HTTPCodeRanges) (co : Bool) (m : Bytes) :
    Undecided (NewCodeCatcher rw R co m) := by
  simp [Undecided, NewCodeCatcher]

/-- On a catcher whose filtered flag is raised with nothing committed, Flush
changes nothing at all. -/
theorem Flush_of_filtered_unsent (cc : CodeCatcher) (h : Undecided cc)
    (hf : cc.caughtFilteredCode = true) (hs : cc.headersSent = false) : cc.Flush = cc := by
  have h1 : (decide (cc.code ≥ 100) && decide (cc.code ≤ 199)) = false := by
    simpa using h.1
  have hR := h.2 hf hs
  obtain ⟨hm, code0, R, filt, unm, rw, sent, co, m⟩ := cc
  simp only at h1 hR hf hs
  subst hf hs
  cases co <;> simp [Flush, WriteHeader, h1, hR]

theorem bodyOf_append (xs ys : List SinkCall) : bodyOf (xs ++ ys) = bodyOf xs ++ bodyOf ys := by
  induction xs with
  | nil => simp [bodyOf]
  | cons x xs ih => cases x <;> simp [bodyOf, ih]

theorem flushesOf_append (xs ys : List SinkCall) :
    flushesOf (xs ++ ys) = flushesOf xs + flushesOf ys := by
  induction xs with
  | nil => simp [flushesOf]
  | cons x xs ih => cases x <;> simp [flushesOf, ih]; omega

theorem Clean_WriteHeader (rw0 : ResponseWriter) (cc : CodeCatcher) (code : Int)
    (hi : ¬ (100 ≤ code ∧ code ≤ 199)) (h : Clean rw0 cc) : Clean rw0 (cc.WriteHeader code) := by
  rcases WriteHeader_cases cc code with e | ⟨_, hi2, _⟩ | ⟨hs, _, _, e⟩ | ⟨hs, hfc, _, _, e⟩
  · rw [e]; exact h
  · exact absurd hi2 hi
  · rw [e]
    obtain ⟨h1, _, _⟩ := h
    refine ⟨fun _ => h1 hs, fun _ _ => hs, fun _ _ => ?_⟩
    show bodyOf cc.responseWriter.calls = _ ∧ flushesOf cc.responseWriter.calls = _
    rw [(h1 hs).1]
    exact ⟨rfl, rfl⟩
  · rw [e]
    obtain ⟨h1, _, _⟩ := h
    refine ⟨fun hs2 => by simp at hs2, fun hco hf => ?_, fun _ _ => ?_⟩
    · have := hfc hf
      simp_all
    · show bodyOf (ResponseWriter.WriteHeader _ code).calls = _ ∧
        flushesOf (ResponseWriter.WriteHeader _ code).calls = _
      simp [ResponseWriter.WriteHeader, bodyOf_append, flushesOf_append, bodyOf, flushesOf,
        (h1 hs).1]

theorem Clean_Write (rw0 : ResponseWriter) (cc : CodeCatcher) (buf : Bytes)
    (hu : Undecided cc) (h : Clean rw0 cc) : Clean rw0 (cc.Write buf).1 := by
  have h1 : Clean rw0 (cc.WriteHeader cc.code) := Clean_WriteHeader rw0 cc cc.code hu.1 h
  revert h1
  unfold CodeCatcher.Write
  generalize cc.WriteHeader cc.code = cc1
  intro h1
  obtain ⟨hm, code0, R, filt, unm, rw, sent, co, m⟩ := cc1
  simp only [Clean, IsMatchingBody] at h1 ⊢
  by_cases hb : buf = m <;> cases filt <;> cases co <;> cases unm <;> cases sent <;>
    simp_all [copyToSink, ResponseWriter.WriteHeader, ResponseWriter.Write, bodyOf_append,
      flushesOf_append, bodyOf, flushesOf]

/-- A non-informational WriteHeader always ends filtered or committed. -/
theorem WriteHeader_resolved (cc : CodeCatcher) (code : Int)
    (hi : ¬ (100 ≤ code ∧ code ≤ 199)) :
    (cc.WriteHeader code).caughtFilteredCode = true ∨ (cc.WriteHeader code).headersSent = true := by
  have h1 : (decide (code ≥ 100) && decide (code ≤ 199)) = false := by simpa using hi
  obtain ⟨hm, code0, R, filt, unm, rw, sent, co, m⟩ := cc
  cases hR : inRanges R code <;> cases sent <;> cases filt <;> cases co <;>
    simp [WriteHeader, h1, hR]

theorem Clean_Flush (rw0 : ResponseWriter) (cc : CodeCatcher)
    (hu : Undecided cc) (h : Clean rw0 cc) : Clean rw0 cc.Flush := by
  have h1 : Clean rw0 (cc.WriteHeader cc.code) := Clean_WriteHeader rw0 cc cc.code hu.1 h
  have h2 := WriteHeader_resolved cc cc.code hu.1
  revert h1 h2
  unfold CodeCatcher.Flush
  generalize cc.WriteHeader cc.code = cc1
  intro h1 h2
  obtain ⟨hm, code0, R, filt, unm, rw, sent, co, m⟩ := cc1
  simp only [Clean, IsMatchingBody] at h1 h2 ⊢
  cases hfl : rw.isFlusher <;> cases filt <;> cases co <;> cases unm <;> cases sent <;>
    simp_all [ResponseWriter.Flush]

theorem Clean_mutateHeader (rw0 : ResponseWriter) (cc : CodeCatcher) (f : Header → Header)
    (h : Clean rw0 cc) : Clean rw0 (cc.mutateHeader f) := by
  obtain ⟨hm, code0, R, filt, unm, rw, sent, co, m⟩ := cc
  simp only [Clean, IsMatchingBody, mutateHeader] at h ⊢
  cases sent <;> simp_all

theorem Clean_run (rw0 : ResponseWriter) (ops : List Op) : ∀ cc : CodeCatcher,
    (∀ code, Op.writeHeader code ∈ ops → ¬ (100 ≤ code ∧ code ≤ 199)) →
    Undecided cc → Clean rw0 cc → Clean rw0 (run cc ops) := by
  induction ops with
  | nil => intro cc _ _ h; exact h
  | cons op ops ih =>
    intro cc hops hu h
    refine ih (step cc op) (fun code hc => hops code (List.mem_cons_of_mem _ hc))
      (Undecided_step cc op hu) ?_
    cases op with
    | writeHeader code =>
      exact Clean_WriteHeader rw0 cc code (hops code (List.mem_cons_self _ _)) h
    | write buf => exact Clean_Write rw0 cc buf hu h
    | flush => exact Clean_Flush rw0 cc hu h
    | header f => exact Clean_mutateHeader rw0 cc f h

theorem Clean_new (rw : ResponseWriter) (R : HTTPCodeRanges) (co : Bool) (m : Bytes) :
    Clean rw (NewCodeCatcher rw R co m) := by
  simp [Clean, NewCodeCatcher]

theorem run_contentsOnly (ops : List Op) : ∀ cc : CodeCatcher,
    (run cc ops).contentsOnly = cc.contentsOnly := by
  induction ops with
  | nil => intro cc; rfl
  | cons op ops ih =>
    intro cc
    have hw : ∀ code, (cc.WriteHeader code).contentsOnly = cc.contentsOnly := by
      intro code
      rcases WriteHeader_cases cc code with e | ⟨_, _, e⟩ | ⟨_, _, _, e⟩ | ⟨_, _, _, _, e⟩ <;>
        rw [e]
    show (run (step cc op) ops).contentsOnly = _
    rw [ih]
    cases op with
    | writeHeader code => exact hw code
    | write buf => exact (Write_frame cc buf).2.2.2.1.trans (hw _)
    | flush => exact (Flush_frame cc).2.2.2.2.1.trans (hw _)
    | header f => simp only [step, mutateHeader]; split <;> rfl

/-- Once headers are committed (and the catcher is not dropping), Write sends
the buffer to the real sink and returns the sink's answer, except that with
content gating enabled a buffer equal to the match string is never sent: the
gate of Write is applied to every buffer, whatever the filtered flag and
whatever an earlier mismatch recorded. -/
theorem Write_of_sent (cc : CodeCatcher) (buf : Bytes) (hs : cc.headersSent = true)
    (hd : cc.caughtFilteredCode = true → cc.contentsOnly = true) :
    (cc.contentsOnly = true ∧ buf = cc.contentsOnlyMatch →
      cc.Write buf = (cc, ((buf.length : Int), none))) ∧
    (¬ (cc.contentsOnly = true ∧ buf = cc.contentsOnlyMatch) →
      (cc.Write buf).1.responseWriter.calls = cc.responseWriter.calls ++ [SinkCall.write buf] ∧
      (cc.Write buf).1.responseWriter.header = cc.responseWriter.header ∧
      (cc.Write buf).2 = (cc.responseWriter.Write buf).2) := by
  have e := WriteHeader_of_sent cc cc.code hs
  unfold CodeCatcher.Write
  rw [e]
  obtain ⟨hm, code0, R, filt, unm, rw, sent, co, m⟩ := cc
  simp only at hs hd
  subst hs
  by_cases hb : buf = m <;> cases filt <;> cases co <;> cases unm <;>
    simp_all [ResponseWriter.Write]

/-! ## Claims -/

/-- C1 (the code at the failing input): ranges ["404"], content gating enabled
with match string "OK", the backend answers 200 with body "OK".  The status is
not filtered and is committed to the real sink, yet the body never reaches it,
while Write reports two bytes written. -/
theorem C1_unfiltered_body_dropped :
    (run (NewCodeCatcher idleSink [(404, 404)] true [79, 75])
        [Op.writeHeader 200, Op.write [79, 75]]).IsFilteredCode = false ∧
    (run (NewCodeCatcher idleSink [(404, 404)] true [79, 75])
        [Op.writeHeader 200, Op.write [79, 75]]).responseWriter.calls =
      [SinkCall.writeHeader 200] ∧
    bodyOf (run (NewCodeCatcher idleSink [(404, 404)] true [79, 75])
        [Op.writeHeader 200, Op.write [79, 75]]).responseWriter.calls = [] ∧
    writeResults (NewCodeCatcher idleSink [(404, 404)] true [79, 75])
        [Op.writeHeader 200, Op.write [79, 75]] = [(2, none)] := by
  decide

/-- C2: with content gating disabled, once a non-informational status inside a
configured range has been written on a fresh catcher, every further sequence of
WriteHeader, Write, Flush (and header mutation) calls leaves the real sink
exactly as it was (no header, status, body byte or flush), every Write reports
(len(buf), nil), and IsFilteredCode and IsMatchingBody are both true. -/
theorem C2_suppression_gating_disabled (rw : ResponseWriter) (R : HTTPCodeRanges) (m : Bytes)
    (H : Header) (c : Int) (ops : List Op)
    (hc : ¬ (100 ≤ c ∧ c ≤ 199)) (hR : ∃ p ∈ R, p.1 ≤ c ∧ c ≤ p.2) :
    (run ((staged rw R false m H).WriteHeader c) ops).responseWriter = rw ∧
    writeResults ((staged rw R false m H).WriteHeader c) ops = allWritten ops ∧
    (run ((staged rw R false m H).WriteHeader c) ops).IsFilteredCode = true ∧
    (run ((staged rw R false m H).WriteHeader c) ops).IsMatchingBody = true := by
  have hR2 := (inRanges_iff R c).2 hR
  rw [staged_WriteHeader_filtered rw R false m H c hc hR2]
  obtain ⟨h1, h2, _, h4, h5⟩ := run_dropping ops
    { staged rw R false m H with code := c, caughtFilteredCode := true } rfl
    (by simp [staged, NewCodeCatcher, mutateHeader])
    (by simp [staged, NewCodeCatcher, mutateHeader])
  refine ⟨?_, h5, h1, ?_⟩
  · rw [h4]; simp [staged, NewCodeCatcher, mutateHeader]
  · simp [IsMatchingBody, h2]

theorem C2_suppression_gating_disabled_witness :
    (run ((staged idleSink [(500, 599)] false [] emptyHeader).WriteHeader 503)
        [Op.write [1, 2], Op.flush, Op.writeHeader 200, Op.write [3]]).responseWriter = idleSink ∧
    writeResults ((staged idleSink [(500, 599)] false [] emptyHeader).WriteHeader 503)
        [Op.write [1, 2], Op.flush, Op.writeHeader 200, Op.write [3]] =
      allWritten [Op.write [1, 2], Op.flush, Op.writeHeader 200, Op.write [3]] ∧
    (run ((staged idleSink [(500, 599)] false [] emptyHeader).WriteHeader 503)
        [Op.write [1, 2], Op.flush, Op.writeHeader 200, Op.write [3]]).IsFilteredCode = true ∧
    (run ((staged idleSink [(500, 599)] false [] emptyHeader).WriteHeader 503)
        [Op.write [1, 2], Op.flush, Op.writeHeader 200, Op.write [3]]).IsMatchingBody = true :=
  C2_suppression_gating_disabled idleSink [(500, 599)] [] emptyHeader 503
    [Op.write [1, 2], Op.flush, Op.writeHeader 200, Op.write [3]] (by decide)
    ⟨(500, 599), by simp, by decide, by decide⟩

/-- C3: with content gating enabled and match string m, after a filtered
non-informational status and one Write(b) on a fresh catcher, IsFilteredCode is
true and IsMatchingBody is true exactly when b equals m. -/
theorem C3_gate_outcome (rw : ResponseWriter) (R : HTTPCodeRanges) (m : Bytes)
    (H : Header) (c : Int) (b : Bytes)
    (hc : ¬ (100 ≤ c ∧ c ≤ 199)) (hR : ∃ p ∈ R, p.1 ≤ c ∧ c ≤ p.2) :
    (((staged rw R true m H).WriteHeader c).Write b).1.IsFilteredCode = true ∧
    ((((staged rw R true m H).WriteHeader c).Write b).1.IsMatchingBody = true ↔ b = m) := by
  have hR2 := (inRanges_iff R c).2 hR
  have h1 : (decide (c ≥ 100) && decide (c ≤ 199)) = false := by
    simpa using hc
  rw [staged_WriteHeader_filtered rw R true m H c hc hR2]
  by_cases hb : b = m
  · simp [staged, NewCodeCatcher, mutateHeader, Write, WriteHeader, h1, hR2, hb,
      IsFilteredCode, IsMatchingBody]
  · simp [staged, NewCodeCatcher, mutateHeader, Write, WriteHeader, h1, hR2, hb,
      IsFilteredCode, IsMatchingBody, ResponseWriter.Write]

theorem C3_gate_outcome_witness :
    (((staged idleSink [(404, 404)] true [79, 79, 80, 83] emptyHeader).WriteHeader 404).Write
        [79, 79, 80, 83]).1.IsFilteredCode = true ∧
    ((((staged idleSink [(404, 404)] true [79, 79, 80, 83] emptyHeader).WriteHeader 404).Write
        [79, 79, 80, 83]).1.IsMatchingBody = true ↔ ([79, 79, 80, 83] : Bytes) = [79, 79, 80, 83]) :=
  C3_gate_outcome idleSink [(404, 404)] [79, 79, 80, 83] emptyHeader 404 [79, 79, 80, 83]
    (by decide) ⟨(404, 404), by simp, by decide, by decide⟩

/-- C4: with content gating enabled and match string m, after a filtered
non-informational status c on a fresh catcher with staged headers H, a single
Write(b) with b different from m makes the real sink receive the staged headers
(every key of H holds in the sink's header map exactly the values it has in H,
every other key keeps what the sink held), then status c once, then exactly the
bytes b, and returns what the sink's Write returned for that header map, those
earlier calls and b; with b equal to m the sink receives no write call and
Write returns (len(b), nil). -/
theorem C4_gate_mismatch_forwards (rw : ResponseWriter) (R : HTTPCodeRanges) (m : Bytes)
    (H : Header) (c : Int) (b : Bytes)
    (hc : ¬ (100 ≤ c ∧ c ≤ 199)) (hR : ∃ p ∈ R, p.1 ≤ c ∧ c ≤ p.2) :
    (b ≠ m →
      (((staged rw R true m H).WriteHeader c).Write b).1.responseWriter.calls =
          rw.calls ++ [SinkCall.writeHeader c, SinkCall.write b] ∧
      (∀ k v, H k = some v →
        (((staged rw R true m H).WriteHeader c).Write b).1.responseWriter.header k = some v) ∧
      (∀ k, H k = none →
        (((staged rw R true m H).WriteHeader c).Write b).1.responseWriter.header k =
          rw.header k) ∧
      (((staged rw R true m H).WriteHeader c).Write b).2 =
          rw.writeResult (((staged rw R true m H).WriteHeader c).Write b).1.responseWriter.header
            (rw.calls ++ [SinkCall.writeHeader c]) b) ∧
    (b = m →
      (((staged rw R true m H).WriteHeader c).Write b).1.responseWriter.calls =
          rw.calls ++ [SinkCall.writeHeader c] ∧
      bodyOf (((staged rw R true m H).WriteHeader c).Write b).1.responseWriter.calls =
          bodyOf rw.calls ∧
      (((staged rw R true m H).WriteHeader c).Write b).2 = ((b.length : Int), none)) := by
  have hR2 := (inRanges_iff R c).2 hR
  have h1 : (decide (c ≥ 100) && decide (c ≤ 199)) = false := by
    simpa using hc
  have hbody : ∀ (xs : List SinkCall) (k : Int),
      bodyOf (xs ++ [SinkCall.writeHeader k]) = bodyOf xs := by
    intro xs k
    induction xs with
    | nil => simp [bodyOf]
    | cons x xs ih => cases x <;> simp [bodyOf, ih]
  rw [staged_WriteHeader_filtered rw R true m H c hc hR2]
  constructor
  · intro hb
    refine ⟨?_, fun k v hv => ?_, fun k hv => ?_, ?_⟩
    · simp [staged, NewCodeCatcher, mutateHeader, Write, WriteHeader, h1, hR2, hb,
        ResponseWriter.Write, ResponseWriter.WriteHeader, copyToSink, CodeCatcher.Header]
    · simp [staged, NewCodeCatcher, mutateHeader, Write, WriteHeader, h1, hR2, hb,
        ResponseWriter.Write, ResponseWriter.WriteHeader, copyToSink, CodeCatcher.Header,
        copyHeader, hv]
    · simp [staged, NewCodeCatcher, mutateHeader, Write, WriteHeader, h1, hR2, hb,
        ResponseWriter.Write, ResponseWriter.WriteHeader, copyToSink, CodeCatcher.Header,
        copyHeader, hv]
    · simp [staged, NewCodeCatcher, mutateHeader, Write, WriteHeader, h1, hR2, hb,
        ResponseWriter.Write, ResponseWriter.WriteHeader, copyToSink, CodeCatcher.Header]
  · intro hb
    simp [staged, NewCodeCatcher, mutateHeader, Write, WriteHeader, h1, hR2, hb,
      ResponseWriter.Write, ResponseWriter.WriteHeader, copyToSink, CodeCatcher.Header, hbody]

theorem C4_gate_mismatch_forwards_witness :
    (((staged idleSink [(404, 404)] true [79, 79, 80, 83]
          (fun k => if k = "Content-Type" then some ["text/html"] else none)).WriteHeader
          404).Write [1, 2, 3]).1.responseWriter.calls =
        idleSink.calls ++ [SinkCall.writeHeader 404, SinkCall.write [1, 2, 3]] ∧
    (((staged idleSink [(404, 404)] true [79, 79, 80, 83]
          (fun k => if k = "Content-Type" then some ["text/html"] else none)).WriteHeader
          404).Write [1, 2, 3]).1.responseWriter.header "Content-Type" = some ["text/html"] ∧
    (((staged idleSink [(404, 404)] true [79, 79, 80, 83]
          (fun k => if k = "Content-Type" then some ["text/html"] else none)).WriteHeader
          404).Write [1, 2, 3]).1.responseWriter.header "Etag" = idleSink.header "Etag" :=
  have h := (C4_gate_mismatch_forwards idleSink [(404, 404)] [79, 79, 80, 83]
    (fun k => if k = "Content-Type" then some ["text/html"] else none) 404 [1, 2, 3]
    (by decide) ⟨(404, 404), by simp, by decide, by decide⟩).1 (by decide)
  ⟨h.1, h.2.1 "Content-Type" ["text/html"] (by simp), h.2.2.1 "Etag" (by simp)⟩

/-- C5 (the code at the failing input): ranges ["404"], content gating enabled
with match string "OOPS", the backend answers 404 and writes "x" then "OOPS".
The first write is marked non-matching and forwarded; the second, equal to the
match string, is reported as written but never reaches the real sink. -/
theorem C5_chunk_dropped_after_mismatch :
    (run (NewCodeCatcher idleSink [(404, 404)] true [79, 79, 80, 83])
        [Op.writeHeader 404, Op.write [120]]).caughtUnmatchingBody = true ∧
    (run (NewCodeCatcher idleSink [(404, 404)] true [79, 79, 80, 83])
        [Op.writeHeader 404, Op.write [120], Op.write [79, 79, 80, 83]]).responseWriter.calls =
      [SinkCall.writeHeader 404, SinkCall.write [120]] ∧
    bodyOf (run (NewCodeCatcher idleSink [(404, 404)] true [79, 79, 80, 83])
        [Op.writeHeader 404, Op.write [120], Op.write [79, 79, 80, 83]]).responseWriter.calls =
      [120] ∧
    writeResults (NewCodeCatcher idleSink [(404, 404)] true [79, 79, 80, 83])
        [Op.writeHeader 404, Op.write [120], Op.write [79, 79, 80, 83]] =
      [(1, none), (4, none)] := by
  decide

/-- C6: after WriteHeader(c) with c outside 100..199 on a fresh catcher (any
ranges, any gating configuration, any staged headers H), IsFilteredCode is true
exactly when some configured pair has low ≤ c ≤ high; when it is false the real
sink has received the staged headers and the status c and headersSent is true;
when it is true the real sink is untouched. -/
theorem C6_filter_decision_is_membership (rw : ResponseWriter) (R : HTTPCodeRanges) (co : Bool)
    (m : Bytes) (H : Header) (c : Int) (hc : ¬ (100 ≤ c ∧ c ≤ 199)) :
    (((staged rw R co m H).WriteHeader c).IsFilteredCode = true ↔
        ∃ p ∈ R, p.1 ≤ c ∧ c ≤ p.2) ∧
    (((staged rw R co m H).WriteHeader c).IsFilteredCode = false →
        ((staged rw R co m H).WriteHeader c).responseWriter.calls =
            rw.calls ++ [SinkCall.writeHeader c] ∧
        ((staged rw R co m H).WriteHeader c).responseWriter.header = copyHeader H rw.header ∧
        ((staged rw R co m H).WriteHeader c).headersSent = true) ∧
    (((staged rw R co m H).WriteHeader c).IsFilteredCode = true →
        ((staged rw R co m H).WriteHeader c).responseWriter = rw) := by
  rw [← inRanges_iff]
  cases hR : inRanges R c
  · rw [staged_WriteHeader_unfiltered rw R co m H c hc hR]
    simp [IsFilteredCode, staged, NewCodeCatcher, mutateHeader, ResponseWriter.WriteHeader]
  · rw [staged_WriteHeader_filtered rw R co m H c hc hR]
    simp [IsFilteredCode, staged, NewCodeCatcher, mutateHeader]

theorem C6_filter_decision_is_membership_witness :
    (((staged idleSink [(500, 599), (404, 404), (500, 510)] true [] emptyHeader).WriteHeader
          200).IsFilteredCode = true ↔
        ∃ p ∈ ([(500, 599), (404, 404), (500, 510)] : HTTPCodeRanges), p.1 ≤ 200 ∧ 200 ≤ p.2) ∧
    (((staged idleSink [(500, 599), (404, 404), (500, 510)] true [] emptyHeader).WriteHeader
          200).IsFilteredCode = false →
        ((staged idleSink [(500, 599), (404, 404), (500, 510)] true [] emptyHeader).WriteHeader
            200).responseWriter.calls = idleSink.calls ++ [SinkCall.writeHeader 200] ∧
        ((staged idleSink [(500, 599), (404, 404), (500, 510)] true [] emptyHeader).WriteHeader
            200).responseWriter.header = copyHeader emptyHeader idleSink.header ∧
        ((staged idleSink [(500, 599), (404, 404), (500, 510)] true [] emptyHeader).WriteHeader
            200).headersSent = true) ∧
    (((staged idleSink [(500, 599), (404, 404), (500, 510)] true [] emptyHeader).WriteHeader
          200).IsFilteredCode = true →
        ((staged idleSink [(500, 599), (404, 404), (500, 510)] true [] emptyHeader).WriteHeader
            200).responseWriter = idleSink) :=
  C6_filter_decision_is_membership idleSink [(500, 599), (404, 404), (500, 510)] true []
    emptyHeader 200 (by decide)

/-- For every configuration and every finite sequence of header-mutation,
non-informational WriteHeader, Write and Flush calls on a fresh catcher, if the
outcome is filteredAndBodyMatched then the real sink has received no body byte
and no flush from the catcher; if moreover headersSent is false, which is
always so when content gating is disabled, the real sink is exactly as it was. -/
theorem no_body_before_substitute (rw : ResponseWriter) (R : HTTPCodeRanges) (co : Bool)
    (m : Bytes) (ops : List Op)
    (hops : ∀ code, Op.writeHeader code ∈ ops → ¬ (100 ≤ code ∧ code ≤ 199))
    (hf : (run (NewCodeCatcher rw R co m) ops).IsFilteredCode = true)
    (hm : (run (NewCodeCatcher rw R co m) ops).IsMatchingBody = true) :
    bodyOf (run (NewCodeCatcher rw R co m) ops).responseWriter.calls = bodyOf rw.calls ∧
    flushesOf (run (NewCodeCatcher rw R co m) ops).responseWriter.calls = flushesOf rw.calls ∧
    ((run (NewCodeCatcher rw R co m) ops).headersSent = false →
      (run (NewCodeCatcher rw R co m) ops).responseWriter = rw) ∧
    (co = false → (run (NewCodeCatcher rw R co m) ops).headersSent = false) := by
  obtain ⟨h1, h2, h3⟩ := Clean_run rw ops _ hops (Undecided_new rw R co m) (Clean_new rw R co m)
  obtain ⟨hb, hfl⟩ := h3 hf hm
  refine ⟨hb, hfl, fun hs => (h1 hs).1, fun hco => h2 ?_ hf⟩
  rw [run_contentsOnly]
  exact hco

/-- C7 (the code at the failing input): ranges ["404"], content gating enabled
with match string "OOPS", the backend stages a Content-Length header, answers
404 and writes exactly "OOPS".  The outcome is filteredAndBodyMatched, so the
Orchestrator will substitute, yet Write has already committed the staged header
and status 404 to the real sink and headersSent is true; with the same status
and no Write, or with gating disabled, the sink is left untouched. -/
theorem C7_committed_before_substitute :
    (run (NewCodeCatcher idleSink [(404, 404)] true [79, 79, 80, 83])
        [Op.header (fun _ k => if k = "Content-Length" then some ["4"] else none),
          Op.writeHeader 404, Op.write [79, 79, 80, 83]]).IsFilteredCode = true ∧
    (run (NewCodeCatcher idleSink [(404, 404)] true [79, 79, 80, 83])
        [Op.header (fun _ k => if k = "Content-Length" then some ["4"] else none),
          Op.writeHeader 404, Op.write [79, 79, 80, 83]]).IsMatchingBody = true ∧
    (run (NewCodeCatcher idleSink [(404, 404)] true [79, 79, 80, 83])
        [Op.header (fun _ k => if k = "Content-Length" then some ["4"] else none),
          Op.writeHeader 404, Op.write [79, 79, 80, 83]]).headersSent = true ∧
    (run (NewCodeCatcher idleSink [(404, 404)] true [79, 79, 80, 83])
        [Op.header (fun _ k => if k = "Content-Length" then some ["4"] else none),
          Op.writeHeader 404, Op.write [79, 79, 80, 83]]).responseWriter.calls =
      [SinkCall.writeHeader 404] ∧
    (run (NewCodeCatcher idleSink [(404, 404)] true [79, 79, 80, 83])
        [Op.header (fun _ k => if k = "Content-Length" then some ["4"] else none),
          Op.writeHeader 404, Op.write [79, 79, 80, 83]]).responseWriter.header
        "Content-Length" = some ["4"] ∧
    (run (NewCodeCatcher idleSink [(404, 404)] true [79, 79, 80, 83])
        [Op.header (fun _ k => if k = "Content-Length" then some ["4"] else none),
          Op.writeHeader 404]).responseWriter.calls = [] ∧
    (run (NewCodeCatcher idleSink [(404, 404)] false [79, 79, 80, 83])
        [Op.header (fun _ k => if k = "Content-Length" then some ["4"] else none),
          Op.writeHeader 404, Op.write [79, 79, 80, 83]]).responseWriter.calls = [] := by
  decide

/-- C8: on a fresh catcher on which WriteHeader was never called (any ranges,
any gating configuration, any staged headers), Write(buf) gives the same
returned pair, catcher state and sink state as WriteHeader(200) followed by
Write(buf), and Flush() gives the same catcher and sink state as
WriteHeader(200) followed by Flush(). -/
theorem C8_implicit_200 (rw : ResponseWriter) (R : HTTPCodeRanges) (co : Bool) (m : Bytes)
    (H : Header) (buf : Bytes) :
    (staged rw R co m H).Write buf = ((staged rw R co m H).WriteHeader 200).Write buf ∧
    (staged rw R co m H).Flush = ((staged rw R co m H).WriteHeader 200).Flush := by
  have hcode : (staged rw R co m H).code = 200 := by
    simp [staged, NewCodeCatcher, mutateHeader]
  have hagain := WriteHeader_again (staged rw R co m H) 200 (by decide)
  constructor
  · show _ = CodeCatcher.Write (CodeCatcher.WriteHeader (staged rw R co m H) 200) buf
    unfold CodeCatcher.Write
    simp only [hagain, hcode]
  · show _ = CodeCatcher.Flush (CodeCatcher.WriteHeader (staged rw R co m H) 200)
    unfold CodeCatcher.Flush
    simp only [hagain, hcode]

/-- C9: on a fresh catcher (any ranges, even ones that include 1xx codes, any
gating configuration, staged headers H), WriteHeader(i) with 100 ≤ i ≤ 199
copies the staged headers to the real sink and passes status i to it exactly
once, and leaves headersSent false, the recorded code 200 and IsFilteredCode
false; and for every later status f, WriteHeader(i) then WriteHeader(f) ends
with the same recorded code, filtered flag and headersSent as WriteHeader(f)
alone. -/
theorem C9_informational_side_channel (rw : ResponseWriter) (R : HTTPCodeRanges) (co : Bool)
    (m : Bytes) (H : Header) (i : Int) (hi : 100 ≤ i ∧ i ≤ 199) :
    ((staged rw R co m H).WriteHeader i).responseWriter.calls =
        rw.calls ++ [SinkCall.writeHeader i] ∧
    ((staged rw R co m H).WriteHeader i).responseWriter.header = copyHeader H rw.header ∧
    ((staged rw R co m H).WriteHeader i).headersSent = false ∧
    ((staged rw R co m H).WriteHeader i).GetCode = 200 ∧
    ((staged rw R co m H).WriteHeader i).IsFilteredCode = false ∧
    ∀ f : Int,
      (((staged rw R co m H).WriteHeader i).WriteHeader f).GetCode =
          ((staged rw R co m H).WriteHeader f).GetCode ∧
      (((staged rw R co m H).WriteHeader i).WriteHeader f).IsFilteredCode =
          ((staged rw R co m H).WriteHeader f).IsFilteredCode ∧
      (((staged rw R co m H).WriteHeader i).WriteHeader f).headersSent =
          ((staged rw R co m H).WriteHeader f).headersSent := by
  have h1 : (decide (i ≥ 100) && decide (i ≤ 199)) = true := by
    simpa using hi
  have e : (staged rw R co m H).WriteHeader i =
      { staged rw R co m H with
        responseWriter :=
          ResponseWriter.WriteHeader { rw with header := copyHeader H rw.header } i } := by
    simp [staged, NewCodeCatcher, mutateHeader, WriteHeader, h1, copyToSink, CodeCatcher.Header]
  rw [e]
  refine ⟨?_, ?_, ?_, ?_, ?_, ?_⟩
  · simp [ResponseWriter.WriteHeader]
  · simp [ResponseWriter.WriteHeader]
  · simp [staged, NewCodeCatcher, mutateHeader]
  · simp [staged, NewCodeCatcher, mutateHeader, GetCode]
  · simp [staged, NewCodeCatcher, mutateHeader, IsFilteredCode]
  · intro f
    simp only [staged, NewCodeCatcher, mutateHeader, WriteHeader, GetCode, IsFilteredCode]
    by_cases hf : (decide (f ≥ 100) && decide (f ≤ 199)) = true
    · simp [hf]
    · cases hR : inRanges R f <;> simp [hf, hR]

theorem C9_informational_side_channel_witness :
    ((100 : Int) ≤ 103 ∧ (103 : Int) ≤ 199) ∧
    ((staged idleSink [(100, 199)] true [] emptyHeader).WriteHeader 103).responseWriter.calls =
        [SinkCall.writeHeader 103] ∧
    ((staged idleSink [(100, 199)] true [] emptyHeader).WriteHeader 103).headersSent = false ∧
    ((staged idleSink [(100, 199)] true [] emptyHeader).WriteHeader 103).GetCode = 200 ∧
    ((staged idleSink [(100, 199)] true [] emptyHeader).WriteHeader 103).IsFilteredCode = false :=
  have h := C9_informational_side_channel idleSink [(100, 199)] true [] emptyHeader 103
    (by decide)
  ⟨by decide, h.1, h.2.2.1, h.2.2.2.1, h.2.2.2.2.1⟩

/-- C10: in every state reachable from a fresh catcher by any sequence of
WriteHeader, Write, Flush and header-mutation calls in which IsFilteredCode is
true and headers are not committed, Flush leaves the real sink unchanged (no
header copied, no status committed, no flush propagated). -/
theorem C10_flush_filtered_sends_nothing (rw : ResponseWriter) (R : HTTPCodeRanges) (co : Bool)
    (m : Bytes) (ops : List Op)
    (hf : (run (NewCodeCatcher rw R co m) ops).IsFilteredCode = true)
    (hs : (run (NewCodeCatcher rw R co m) ops).headersSent = false) :
    (run (NewCodeCatcher rw R co m) ops).Flush.responseWriter =
      (run (NewCodeCatcher rw R co m) ops).responseWriter := by
  rw [Flush_of_filtered_unsent _ (Undecided_run ops _ (Undecided_new rw R co m)) hf hs]

theorem C10_flush_filtered_sends_nothing_witness :
    (run (NewCodeCatcher idleSink [(404, 404)] true [79])
        [Op.writeHeader 103, Op.writeHeader 404, Op.flush]).IsFilteredCode = true ∧
    (run (NewCodeCatcher idleSink [(404, 404)] true [79])
        [Op.writeHeader 103, Op.writeHeader 404, Op.flush]).headersSent = false ∧
    (run (NewCodeCatcher idleSink [(404, 404)] true [79])
        [Op.writeHeader 103, Op.writeHeader 404, Op.flush]).Flush.responseWriter =
      (run (NewCodeCatcher idleSink [(404, 404)] true [79])
        [Op.writeHeader 103, Op.writeHeader 404, Op.flush]).responseWriter :=
  ⟨by decide, by decide,
    C10_flush_filtered_sends_nothing idleSink [(404, 404)] true [79]
      [Op.writeHeader 103, Op.writeHeader 404, Op.flush] (by decide) (by decide)⟩

end Helpers

/-! ## The plugin package -/

namespace TraefikErrorPage

open Helpers

/-! ### Facts on the string functions -/

theorem replaceAux_skip (old new : List Char) : ∀ (cs : List Char) (k : Nat),
    replaceAux old new k cs = replaceAux old new 0 (cs.drop k) := by
  intro cs
  induction cs with
  | nil => intro k; cases k <;> simp [replaceAux]
  | cons c cs ih =>
    intro k
    cases k with
    | zero => simp
    | succ k => simp [replaceAux, ih k]

/-- Where old matches, the scan of ReplaceAll emits new and goes on after the
match. -/
theorem replaceAux_match (o : Char) (os new cs : List Char) (c : Char)
    (h : (o :: os).isPrefixOf (c :: cs) = true) :
    replaceAux (o :: os) new 0 (c :: cs) = new ++ replaceAux (o :: os) new 0 (cs.drop os.length) := by
  rw [replaceAux]
  simp only [List.isEmpty_cons, Bool.false_eq_true, if_false, h, if_true, List.length_cons,
    Nat.add_sub_cancel]
  rw [replaceAux_skip]

/-- Where old does not match, the scan of ReplaceAll copies one character. -/
theorem replaceAux_nomatch (o : Char) (os new cs : List Char) (c : Char)
    (h : (o :: os).isPrefixOf (c :: cs) = false) :
    replaceAux (o :: os) new 0 (c :: cs) = c :: replaceAux (o :: os) new 0 cs := by
  rw [replaceAux]
  simp [h]

/-- Text without the first character of old passes through ReplaceAll as it is. -/
theorem replaceAux_append_of_ne (o : Char) (os new : List Char) (x y : List Char)
    (hx : ∀ ch ∈ x, ch ≠ o) :
    replaceAux (o :: os) new 0 (x ++ y) = x ++ replaceAux (o :: os) new 0 y := by
  induction x with
  | nil => rfl
  | cons a x ih =>
    have ha : a ≠ o := hx a (List.mem_cons_self _ _)
    have hp : (o :: os).isPrefixOf (a :: (x ++ y)) = false := by
      simp [List.isPrefixOf, Ne.symm ha]
    rw [List.cons_append, replaceAux_nomatch _ _ _ _ _ hp,
      ih (fun ch hch => hx ch (List.mem_cons_of_mem _ hch))]
    rfl

/-- The characters strconv.Itoa can produce. -/
theorem digitChar_mem (n : Nat) (h : n < 10) : Nat.digitChar n ∈ "-0123456789".data := by
  interval_cases n <;> decide

theorem toDigitsCore_mem (fuel : Nat) : ∀ (n : Nat) (acc : List Char),
    (∀ ch ∈ acc, ch ∈ "-0123456789".data) →
    ∀ ch ∈ Nat.toDigitsCore 10 fuel n acc, ch ∈ "-0123456789".data := by
  induction fuel with
  | zero => intro n acc h; simpa [Nat.toDigitsCore] using h
  | succ fuel ih =>
    intro n acc h
    have hd := digitChar_mem (n % 10) (Nat.mod_lt _ (by decide))
    have hacc : ∀ ch ∈ Nat.digitChar (n % 10) :: acc, ch ∈ "-0123456789".data := by
      intro ch hch
      rcases List.mem_cons.1 hch with rfl | hch
      · exact hd
      · exact h ch hch
    simp only [Nat.toDigitsCore]
    split
    · exact hacc
    · exact ih _ _ hacc

theorem toDigitsCore_length (fuel : Nat) : ∀ (n : Nat) (acc : List Char),
    acc.length ≤ (Nat.toDigitsCore 10 fuel n acc).length := by
  induction fuel with
  | zero => intro n acc; simp [Nat.toDigitsCore]
  | succ fuel ih =>
    intro n acc
    simp only [Nat.toDigitsCore]
    split
    · simp
    · exact Nat.le_trans (by simp) (ih _ _)

theorem Itoa_chars (c : Int) :
    (Itoa c).data ≠ [] ∧ ∀ ch ∈ (Itoa c).data, ch ∈ "-0123456789".data := by
  have hrepr : ∀ n : Nat, (Nat.repr n).data ≠ [] ∧
      ∀ ch ∈ (Nat.repr n).data, ch ∈ "-0123456789".data := by
    intro n
    have e : (Nat.repr n).data = Nat.toDigitsCore 10 (n + 1) n [] := rfl
    rw [e]
    constructor
    · intro h0
      have h1 : (Nat.toDigitsCore 10 (n + 1) n []).length = 0 := by rw [h0]; rfl
      simp only [Nat.toDigitsCore] at h1
      split at h1
      · simp at h1
      · have := toDigitsCore_length n (n / 10) [Nat.digitChar (n % 10)]
        simp only [List.length_singleton] at this
        omega
    · exact toDigitsCore_mem _ _ _ (by simp)
  cases c with
  | ofNat n => exact hrepr n
  | negSucc n =>
    have e : (Itoa (Int.negSucc n)).data = '-' :: (Nat.repr (n + 1)).data := by
      simp [Itoa, String.data_append]
    rw [e]
    refine ⟨by simp, ?_⟩
    intro ch hch
    rcases List.mem_cons.1 hch with rfl | hch
    · decide
    · exact (hrepr (n + 1)).2 ch hch

/-- If the text after replacing {status} starts with w, a word with no opening
brace and no character of a decimal number, the text before did too. -/
theorem isPrefixOf_replace_status (d : List Char) (hd0 : d ≠ [])
    (hd : ∀ ch ∈ d, ch ∈ "-0123456789".data) : ∀ (w cs : List Char),
    (∀ ch ∈ w, ch ≠ '{' ∧ ch ∉ "-0123456789".data) →
    w.isPrefixOf (replaceAux "{status}".data d 0 cs) = true → w.isPrefixOf cs = true := by
  intro w
  induction w with
  | nil => intro cs _ _; simp
  | cons a w ih =>
    intro cs hw h
    have ha := hw a (List.mem_cons_self _ _)
    cases cs with
    | nil => simp [replaceAux] at h
    | cons x xs =>
      cases hm : "{status}".data.isPrefixOf (x :: xs)
      · rw [show "{status}".data = '{' :: "status\x7d".data from rfl] at hm h
        rw [replaceAux_nomatch _ _ _ _ _ hm] at h
        simp only [List.isPrefixOf, Bool.and_eq_true] at h ⊢
        exact ⟨h.1, ih xs (fun ch hch => hw ch (List.mem_cons_of_mem _ hch)) h.2⟩
      · rw [show "{status}".data = '{' :: "status\x7d".data from rfl] at hm h
        rw [replaceAux_match _ _ _ _ _ hm] at h
        cases d with
        | nil => exact absurd rfl hd0
        | cons d0 ds =>
          have hd1 := hd d0 (List.mem_cons_self _ _)
          have hne : a ≠ d0 := fun e => ha.2 (e ▸ hd1)
          simp [List.isPrefixOf, hne] at h

/-- Replacing {status} and then {url}, as parseQuery does, gives the text in
which both placeholders are substituted in one pass. -/
theorem replace_twice_eq_substitute (d e : List Char) (hd0 : d ≠ [])
    (hd : ∀ ch ∈ d, ch ∈ "-0123456789".data) : ∀ (n : Nat) (s : List Char), s.length ≤ n →
    replaceAux "{url}".data e 0 (replaceAux "{status}".data d 0 s) = substituteAux d e 0 s := by
  have hbrace : ∀ ch ∈ d, ch ≠ '{' := by
    intro ch hch h
    have := hd ch hch
    rw [h] at this
    exact absurd this (by decide)
  have hP1 : "{status}".data = '{' :: "status\x7d".data := rfl
  have hP2 : "{url}".data = '{' :: "url\x7d".data := rfl
  intro n
  induction n with
  | zero =>
    intro s hs
    have : s = [] := List.length_eq_zero.1 (Nat.le_zero.1 hs)
    subst this
    simp [replaceAux, substituteAux]
  | succ n ih =>
    intro s hs
    cases s with
    | nil => simp [replaceAux, substituteAux]
    | cons c cs =>
      have hlen : cs.length ≤ n := by simpa using hs
      cases h1 : "{status}".data.isPrefixOf (c :: cs)
      · cases h2 : "{url}".data.isPrefixOf (c :: cs)
        · -- no placeholder starts here
          have hr1 : replaceAux "{status}".data d 0 (c :: cs) =
              c :: replaceAux "{status}".data d 0 cs := by
            rw [hP1] at h1 ⊢
            exact replaceAux_nomatch _ _ _ _ _ h1
          have hno : "{url}".data.isPrefixOf (c :: replaceAux "{status}".data d 0 cs) = false := by
            cases h3 : "{url}".data.isPrefixOf (c :: replaceAux "{status}".data d 0 cs)
            · rfl
            · rw [hP2] at h3 h2
              simp only [List.isPrefixOf, Bool.and_eq_true] at h3
              have h4 := isPrefixOf_replace_status d hd0 hd "url\x7d".data cs (by decide) h3.2
              simp [List.isPrefixOf, h3.1, h4] at h2
          rw [hr1]
          rw [hP2] at hno ⊢
          rw [replaceAux_nomatch _ _ _ _ _ hno]
          rw [← hP2, ih cs hlen]
          rw [substituteAux]
          rw [h1, h2]
          simp
        · -- {url} starts here
          obtain ⟨rest, hrest⟩ := List.isPrefixOf_iff_prefix.1 h2
          have hcs : c = '{' ∧ cs = 'u' :: 'r' :: 'l' :: '}' :: rest := by
            have : ('{' :: 'u' :: 'r' :: 'l' :: '}' :: rest) = c :: cs := hrest
            simpa [eq_comm] using this
          obtain ⟨rfl, rfl⟩ := hcs
          have hlen2 : rest.length ≤ n := by simp at hlen; omega
          have hr1 : replaceAux "{status}".data d 0 ('{' :: 'u' :: 'r' :: 'l' :: '}' :: rest) =
              '{' :: 'u' :: 'r' :: 'l' :: '}' :: replaceAux "{status}".data d 0 rest := by
            rw [hP1]
            rw [replaceAux_nomatch _ _ _ _ _ (by simp [List.isPrefixOf]),
              replaceAux_nomatch _ _ _ _ _ (by simp [List.isPrefixOf]),
              replaceAux_nomatch _ _ _ _ _ (by simp [List.isPrefixOf]),
              replaceAux_nomatch _ _ _ _ _ (by simp [List.isPrefixOf]),
              replaceAux_nomatch _ _ _ _ _ (by simp [List.isPrefixOf])]
          rw [hr1, hP2]
          rw [replaceAux_match _ _ _ _ _ (by simp [List.isPrefixOf])]
          rw [← hP2]
          simp only [String.data, List.length_cons, List.length_nil, List.drop_succ_cons,
            List.drop_zero]
          rw [show ['{', 'u', 'r', 'l', '}'] = "{url}".data from rfl, ih rest hlen2]
          rw [substituteAux, h1, h2]
          simp [substituteAux]
      · -- {status} starts here
        obtain ⟨rest, hrest⟩ := List.isPrefixOf_iff_prefix.1 h1
        have hcs : c = '{' ∧ cs = 's' :: 't' :: 'a' :: 't' :: 'u' :: 's' :: '}' :: rest := by
          have : ('{' :: 's' :: 't' :: 'a' :: 't' :: 'u' :: 's' :: '}' :: rest) = c :: cs := hrest
          simpa [eq_comm] using this
        obtain ⟨rfl, rfl⟩ := hcs
        have hlen2 : rest.length ≤ n := by simp at hlen; omega
        rw [hP1]
        rw [replaceAux_match _ _ _ _ _ (by simp [List.isPrefixOf])]
        rw [hP2, replaceAux_append_of_ne _ _ _ _ _ hbrace, ← hP1, ← hP2]
        simp only [String.data, List.length_cons, List.length_nil, List.drop_succ_cons,
          List.drop_zero]
        rw [show ['{', 's', 't', 'a', 't', 'u', 's', '}'] = "{status}".data from rfl,
          show ['{', 'u', 'r', 'l', '}'] = "{url}".data from rfl, ih rest hlen2]
        rw [substituteAux, h1]
        simp [substituteAux]

theorem len_eq_zero_iff (s : String) : len s = 0 ↔ s = "" := by
  constructor
  · intro h
    have hdata : s.data = [] := by
      cases hs : s.data with
      | nil => rfl
      | cons c cs =>
        have hpos := Char.utf8Size_pos c
        simp [len, bytesOf, hs, String.length_utf8EncodeChar] at h
        omega
    exact String.ext hdata
  · intro h
    subst h
    rfl

/-- The path parseQuery starts from: one leading "/" of the template is
stripped and a "/" is put in front, which leaves a template that begins with
"/" as it is and puts "/" before any other. -/
theorem slash_TrimPrefix (q : String) :
    ("/" ++ TrimPrefix q "/").data =
      if "/".data.isPrefixOf q.data then q.data else '/' :: q.data := by
  have h1 : "/".data = ['/'] := rfl
  cases hq : q.data with
  | nil => simp [TrimPrefix, String.data_append, hq, h1]
  | cons c cs =>
    by_cases hc : c = '/'
    · subst hc
      simp [TrimPrefix, String.data_append, hq, h1]
    · have hc2 : ('/' == c) = false := by simpa using fun h => hc h.symm
      simp [TrimPrefix, String.data_append, hq, h1, hc2, Ne.symm hc]

/-- The method parseQuery renders the path the specification describes. -/
theorem parseQuery_eq_renderedPath {Handler : Type} (ep : ErrorPage Handler) (c : Int)
    (u : String) : ep.parseQuery c u = renderedPath ep.query c u := by
  obtain ⟨hd0, hd⟩ := Itoa_chars c
  simp only [ErrorPage.parseQuery, ReplaceAll, renderedPath]
  rw [replace_twice_eq_substitute _ _ hd0 hd _ _ (Nat.le_refl _), slash_TrimPrefix]

theorem renderedPath_slash (t : String) (c : Int) (u : String) :
    "/".data.isPrefixOf (renderedPath t c u).data = true := by
  have h1 : "/".data = ['/'] := rfl
  have hstart : ∃ rest, (if "/".data.isPrefixOf t.data then t.data else '/' :: t.data) =
      '/' :: rest := by
    cases ht : t.data with
    | nil => exact ⟨[], by simp [h1]⟩
    | cons a as =>
      by_cases ha : a = '/'
      · subst ha; exact ⟨as, by simp [h1]⟩
      · have ha2 : ('/' == a) = false := by simpa using fun h => ha h.symm
        exact ⟨a :: as, by simp [h1, ha2, Ne.symm ha]⟩
  obtain ⟨rest, hrest⟩ := hstart
  simp only [renderedPath, hrest]
  rw [substituteAux]
  simp [h1, List.isPrefixOf]

/-! ### Claims on the plugin package -/

/-- C11 (the code at the failing input): when the secondary GET fails with an
error and a nil response, handleInService writes the 500 error page to the
client sink and then, having no return after http.Error, goes on to evaluate
res.Body on the nil response: the call ends in a nil-pointer panic and does not
return normally. -/
theorem C11_body_read_after_fetch_error (rw : ResponseWriter) (e : String) :
    handleInService rw none (some e) =
      Outcome.nilPointerPanic
        (httpError { rw with header := addHeader rw.header "X-Errorpage" "served" } e 500) ∧
    (httpError { rw with header := addHeader rw.header "X-Errorpage" "served" } e 500).calls =
      rw.calls ++ [SinkCall.writeHeader 500, SinkCall.write (bytesOf e ++ bytesOf "\n")] ∧
    ∀ rw1 : ResponseWriter, handleInService rw none (some e) ≠ Outcome.returned rw1 := by
  refine ⟨rfl, ?_, ?_⟩
  · simp [httpError, ResponseWriter.Write, ResponseWriter.WriteHeader]
  · intro rw1 h
    simp [handleInService] at h

/-- C12 (the code at the failing input): the query of the configuration
returned by CreateConfig is "/{StatusCode}.html", not "/{status}.html"; it holds
no placeholder parseQuery knows, so for every status code and request URL the
rendered path is the template itself, and for 503 it is not "/503.html". -/
theorem C12_default_query_keeps_placeholder {Handler : Type} (ep : ErrorPage Handler) (c : Int)
    (u : String) :
    CreateConfig.Query = "/{StatusCode}.html" ∧
    CreateConfig.Query ≠ "/{status}.html" ∧
    ErrorPage.parseQuery { ep with query := CreateConfig.Query } c u = "/{StatusCode}.html" ∧
    ErrorPage.parseQuery { ep with query := CreateConfig.Query } 503 u ≠ "/503.html" := by
  refine ⟨rfl, by decide, rfl, ?_⟩
  have e : ErrorPage.parseQuery { ep with query := CreateConfig.Query } 503 u =
      "/{StatusCode}.html" := rfl
  rw [e]
  decide

/-- C13 (counterexample): with the template "//{status}.html" the path rendered
for 503 is "//503.html", which begins with two slashes, not with exactly one. -/
theorem C13_counterexample :
    ErrorPage.parseQuery
      ({ next := (), httpStatusRanges := [(500, 599)], service := "http://errsvc",
         query := "//{status}.html", name := "errorpage", contentsOnly := false,
         contentsOnlyMatch := "", debug := false } : ErrorPage Unit) 503 "/x" =
      "//503.html" := by
  decide

/-- C13 (amended): for every status code c and request URL u, parseQuery with
the template "/{status}.html" returns "/" followed by the decimal code and
".html"; for every template t the result is t, with a "/" put in front when t
does not begin with one (a t that begins with several slashes keeps them), in
which every occurrence of {status} is replaced by the decimal status code and
every occurrence of {url} by the URL-escaped request URL; and the result always
begins with "/". -/
theorem C13_query_rendering {Handler : Type} (ep : ErrorPage Handler) (c : Int) (u : String) :
    ErrorPage.parseQuery { ep with query := "/{status}.html" } c u =
      "/" ++ Itoa c ++ ".html" ∧
    ep.parseQuery c u = renderedPath ep.query c u ∧
    "/".data.isPrefixOf (ep.parseQuery c u).data = true := by
  refine ⟨?_, parseQuery_eq_renderedPath ep c u, ?_⟩
  · rw [parseQuery_eq_renderedPath]
    apply String.ext
    simp [renderedPath, substituteAux, List.isPrefixOf, String.data_append]
  · rw [parseQuery_eq_renderedPath]
    exact renderedPath_slash _ _ _

/-- C14: for every configuration, New returns the error "status cannot be
empty" and no handler when the status list is empty, the error "service cannot
be empty" and no handler when the status list is not empty and the service
string is empty, and it returns a handler only for a configuration whose status
list and service are both non-empty; the configuration returned by CreateConfig
is rejected. -/
theorem C14_required_fields {Handler : Type}
    (parseRanges : List String → Except String HTTPCodeRanges) (next : Handler)
    (config : Config) (name : String) :
    (config.Status = [] →
      New parseRanges next config name = Except.error "status cannot be empty") ∧
    (config.Status ≠ [] → config.Service = "" →
      New parseRanges next config name = Except.error "service cannot be empty") ∧
    (∀ ep, New parseRanges next config name = Except.ok ep →
      config.Status ≠ [] ∧ config.Service ≠ "") ∧
    New parseRanges next CreateConfig name = Except.error "status cannot be empty" := by
  refine ⟨fun h => ?_, fun h1 h2 => ?_, fun ep h => ?_, rfl⟩
  · simp [New, h]
  · have hl : len config.Service = 0 := (len_eq_zero_iff _).2 h2
    simp [New, h1, hl]
  · by_cases h1 : config.Status = []
    · simp [New, h1] at h
    · by_cases h2 : config.Service = ""
      · have hl : len config.Service = 0 := (len_eq_zero_iff _).2 h2
        simp [New, h1, hl] at h
      · exact ⟨h1, h2⟩

theorem C14_required_fields_witness :
    New (fun _ => Except.ok [(404, 404)]) ()
        { CreateConfig with Status := ["404"] } "errorpage" =
      Except.error "service cannot be empty" :=
  (C14_required_fields (fun _ => Except.ok [(404, 404)]) ()
    { CreateConfig with Status := ["404"] } "errorpage").2.1 (by simp) rfl

end TraefikErrorPage

namespace Helpers

open CodeCatcher

/-! ## Further facts on call sequences -/

theorem run_append (xs ys : List Op) : ∀ cc : CodeCatcher,
    run cc (xs ++ ys) = run (run cc xs) ys := by
  induction xs with
  | nil => intro cc; rfl
  | cons x xs ih => intro cc; exact ih (step cc x)

/-- A raised filtered flag is never lowered, sent headers stay sent, and once
headers are sent the filtered flag no longer changes. -/
theorem step_monotone (cc : CodeCatcher) (op : Op) :
    (cc.caughtFilteredCode = true → (step cc op).caughtFilteredCode = true) ∧
    (cc.headersSent = true → (step cc op).headersSent = true) ∧
    (cc.headersSent = true → (step cc op).caughtFilteredCode = cc.caughtFilteredCode) := by
  have hw : ∀ code,
      (cc.caughtFilteredCode = true → (cc.WriteHeader code).caughtFilteredCode = true) ∧
      (cc.headersSent = true → cc.WriteHeader code = cc) := by
    intro code
    refine ⟨fun hf => ?_, fun hs => WriteHeader_of_sent cc code hs⟩
    rcases WriteHeader_cases cc code with e | ⟨_, _, e⟩ | ⟨_, _, _, e⟩ | ⟨_, _, _, _, e⟩ <;>
      rw [e] <;> simp [hf]
  cases op with
  | writeHeader code =>
    refine ⟨(hw code).1, fun hs => ?_, fun hs => ?_⟩ <;>
      simp only [step, (hw code).2 hs, hs]
  | write buf =>
    obtain ⟨_, _, e3, _, _, e6⟩ := Write_frame cc buf
    simp only [step]
    refine ⟨fun hf => by rw [e3]; exact (hw _).1 hf, fun hs => ?_, fun hs => ?_⟩
    · cases h : (cc.Write buf).1.headersSent
      · have := e6 h
        rw [(hw _).2 hs, hs] at this
        exact absurd this (by simp)
      · rfl
    · rw [e3, (hw _).2 hs]
  | flush =>
    obtain ⟨_, _, e3, e4, _, _⟩ := Flush_frame cc
    simp only [step]
    refine ⟨fun hf => by rw [e3]; exact (hw _).1 hf, fun hs => ?_, fun hs => ?_⟩
    · rw [e4, (hw _).2 hs, hs]
    · rw [e3, (hw _).2 hs]
  | header f =>
    simp only [step, mutateHeader]
    refine ⟨fun hf => ?_, fun hs => ?_, fun hs => ?_⟩ <;> split <;> simp_all

theorem run_monotone (ops : List Op) : ∀ cc : CodeCatcher,
    (cc.caughtFilteredCode = true → (run cc ops).caughtFilteredCode = true) ∧
    (cc.headersSent = true → (run cc ops).headersSent = true) ∧
    (cc.headersSent = true → (run cc ops).caughtFilteredCode = cc.caughtFilteredCode) := by
  induction ops with
  | nil => intro cc; exact ⟨id, id, fun _ => rfl⟩
  | cons op ops ih =>
    intro cc
    obtain ⟨s1, s2, s3⟩ := step_monotone cc op
    obtain ⟨r1, r2, r3⟩ := ih (step cc op)
    exact ⟨fun hf => r1 (s1 hf), fun hs => r2 (s2 hs), fun hs => (r3 (s2 hs)).trans (s3 hs)⟩

/-- After a call that resolves the status (a non-informational WriteHeader, a
Write or a Flush) on a catcher whose recorded code is not informational, the
code is filtered or the headers are sent. -/
theorem step_resolves (cc : CodeCatcher) (op : Op) (hu : Undecided cc)
    (hop : (∃ c, op = Op.writeHeader c ∧ ¬ (100 ≤ c ∧ c ≤ 199)) ∨ (∃ b, op = Op.write b) ∨
      op = Op.flush) :
    (step cc op).caughtFilteredCode = true ∨ (step cc op).headersSent = true := by
  rcases hop with ⟨c, rfl, hc⟩ | ⟨b, rfl⟩ | rfl
  · exact WriteHeader_resolved cc c hc
  · obtain ⟨_, _, e3, _, _, e6⟩ := Write_frame cc b
    simp only [step]
    rcases WriteHeader_resolved cc cc.code hu.1 with h | h
    · left; rw [e3]; exact h
    · right
      cases h2 : (cc.Write b).1.headersSent
      · have := e6 h2
        rw [h] at this
        exact absurd this (by simp)
      · rfl
  · obtain ⟨_, _, e3, e4, _, _⟩ := Flush_frame cc
    simp only [step]
    rcases WriteHeader_resolved cc cc.code hu.1 with h | h
    · left; rw [e3]; exact h
    · right; rw [e4]; exact h

theorem copyHeader_idem (H h : Header) : copyHeader H (copyHeader H h) = copyHeader H h := by
  funext k
  simp only [copyHeader]
  cases H k <;> rfl

/-- A run of informational WriteHeader calls on a catcher that has neither
sent headers nor filtered a code: the catcher is unchanged, the sink holds the
staged headers over its own and has received the statuses in order. -/
theorem run_informational (is : List Int) (hi : ∀ i ∈ is, 100 ≤ i ∧ i ≤ 199) :
    ∀ cc : CodeCatcher, cc.headersSent = false → cc.caughtFilteredCode = false →
    run cc (is.map Op.writeHeader) =
      { cc with
        responseWriter :=
          { cc.responseWriter with
            header :=
              if is = [] then cc.responseWriter.header
              else copyHeader cc.headerMap cc.responseWriter.header
            calls := cc.responseWriter.calls ++ is.map SinkCall.writeHeader } } := by
  induction is with
  | nil => intro cc _ _; simp [run]
  | cons i is ih =>
    intro cc hs hf
    have h1 : (decide (i ≥ 100) && decide (i ≤ 199)) = true := by
      simpa using hi i (List.mem_cons_self _ _)
    have e : cc.WriteHeader i =
        { cc with
          responseWriter :=
            ResponseWriter.WriteHeader
              { cc.responseWriter with
                header := copyHeader cc.headerMap cc.responseWriter.header } i } := by
      simp [WriteHeader, hs, hf, h1, copyToSink, CodeCatcher.Header]
    have hrest := ih (fun j hj => hi j (List.mem_cons_of_mem _ hj)) (cc.WriteHeader i)
      (by rw [e]; exact hs) (by rw [e]; exact hf)
    simp only [List.map_cons, run, step]
    rw [hrest, e]
    by_cases hn : is = []
    · simp [hn, ResponseWriter.WriteHeader]
    · simp [hn, ResponseWriter.WriteHeader, copyHeader_idem]

theorem terminalCount_append (xs ys : List SinkCall) :
    terminalCount (xs ++ ys) = terminalCount xs + terminalCount ys := by
  induction xs with
  | nil => simp [terminalCount]
  | cons x xs ih =>
    cases x with
    | writeHeader code =>
      by_cases h : 100 ≤ code ∧ code ≤ 199
      · simp [terminalCount, h, ih]
      · simp only [List.cons_append, terminalCount, h, if_false, List.append_eq, ih]; omega
    | write buf => simp [terminalCount, ih]
    | flush => simp [terminalCount, ih]

theorem committedBeforeBody_append (xs ys : List SinkCall) : ∀ seen : Bool,
    committedBeforeBody seen (xs ++ ys) =
      (committedBeforeBody seen xs &&
        committedBeforeBody (seen || decide (0 < terminalCount xs)) ys) := by
  induction xs with
  | nil => intro seen; simp [committedBeforeBody, terminalCount]
  | cons x xs ih =>
    intro seen
    cases x with
    | writeHeader code =>
      by_cases h : 100 ≤ code ∧ code ≤ 199
      · simp [committedBeforeBody, terminalCount, h, ih]
      · simp only [List.cons_append, committedBeforeBody, terminalCount, h, if_false,
          List.append_eq, ih]
        simp
    | write buf => simp [committedBeforeBody, terminalCount, ih, Bool.and_assoc]
    | flush => simp [committedBeforeBody, terminalCount, ih]

theorem Traced_new (rw : ResponseWriter) (R : HTTPCodeRanges) (co : Bool) (m : Bytes) :
    Traced rw (NewCodeCatcher rw R co m) := by
  simp [Traced, emitted, NewCodeCatcher, terminalCount, committedBeforeBody]

theorem Traced_WriteHeader (rw0 : ResponseWriter) (cc : CodeCatcher) (code : Int)
    (h : Traced rw0 cc) : Traced rw0 (cc.WriteHeader code) := by
  obtain ⟨hlen, ht, hc, hu, hcode⟩ := h
  rcases WriteHeader_cases cc code with e | ⟨hs, hi, e⟩ | ⟨hs, hi, _, e⟩ | ⟨hs, _, hi, _, e⟩
  · rw [e]; exact ⟨hlen, ht, hc, hu, hcode⟩
  · rw [e]
    simp only [Traced, emitted, ResponseWriter.WriteHeader, copyToSink] at *
    refine ⟨by simp; omega, ?_, ?_, hu, hcode⟩
    · rw [List.drop_append_of_le_length hlen, terminalCount_append, ht]
      simp [terminalCount, hi]
    · rw [List.drop_append_of_le_length hlen, committedBeforeBody_append, hc]
      simp [committedBeforeBody]
  · rw [e]
    exact ⟨hlen, ht, hc, hu, hi⟩
  · rw [e]
    simp only [Traced, emitted, ResponseWriter.WriteHeader] at *
    refine ⟨by simp; omega, ?_, ?_, fun h => by simp at h, hi⟩
    · rw [List.drop_append_of_le_length hlen, terminalCount_append, ht]
      simp [terminalCount, hi, hs]
    · rw [List.drop_append_of_le_length hlen, committedBeforeBody_append, hc]
      simp [committedBeforeBody]

theorem Traced_Write (rw0 : ResponseWriter) (cc : CodeCatcher) (buf : Bytes)
    (h : Traced rw0 cc) : Traced rw0 (cc.Write buf).1 := by
  have h1 : Traced rw0 (cc.WriteHeader cc.code) := Traced_WriteHeader rw0 cc cc.code h
  have h2 := WriteHeader_resolved cc cc.code h.2.2.2.2
  revert h1 h2
  unfold CodeCatcher.Write
  generalize cc.WriteHeader cc.code = cc1
  intro h1 h2
  obtain ⟨hm, code0, R, filt, unm, rw, sent, co, m⟩ := cc1
  simp only [Traced, emitted] at h1 h2 ⊢
  obtain ⟨hlen, ht, hc, hu, hcode⟩ := h1
  have hd : ∀ x : SinkCall, List.drop rw0.calls.length (rw.calls ++ [x]) =
      List.drop rw0.calls.length rw.calls ++ [x] :=
    fun x => List.drop_append_of_le_length hlen
  have hd2 : ∀ x y : SinkCall, List.drop rw0.calls.length (rw.calls ++ [x] ++ [y]) =
      List.drop rw0.calls.length rw.calls ++ [x] ++ [y] := by
    intro x y
    rw [List.drop_append_of_le_length (by simp; omega), hd]
  by_cases hb : buf = m <;> cases filt <;> cases co <;> cases unm <;> cases sent <;>
    simp_all [copyToSink, ResponseWriter.WriteHeader, ResponseWriter.Write,
      terminalCount_append, committedBeforeBody_append, terminalCount, committedBeforeBody] <;>
    omega

theorem Traced_Flush (rw0 : ResponseWriter) (cc : CodeCatcher)
    (h : Traced rw0 cc) : Traced rw0 cc.Flush := by
  have h1 : Traced rw0 (cc.WriteHeader cc.code) := Traced_WriteHeader rw0 cc cc.code h
  revert h1
  unfold CodeCatcher.Flush
  generalize cc.WriteHeader cc.code = cc1
  intro h1
  obtain ⟨hm, code0, R, filt, unm, rw, sent, co, m⟩ := cc1
  simp only [Traced, emitted] at h1 ⊢
  obtain ⟨hlen, ht, hc, hu, hcode⟩ := h1
  have hd : ∀ x : SinkCall, List.drop rw0.calls.length (rw.calls ++ [x]) =
      List.drop rw0.calls.length rw.calls ++ [x] :=
    fun x => List.drop_append_of_le_length hlen
  cases hfl : rw.isFlusher <;> cases filt <;>
    simp_all [ResponseWriter.Flush, terminalCount_append, committedBeforeBody_append,
      terminalCount, committedBeforeBody]
  omega

theorem Traced_mutateHeader (rw0 : ResponseWriter) (cc : CodeCatcher) (f : Header → Header)
    (h : Traced rw0 cc) : Traced rw0 (cc.mutateHeader f) := by
  obtain ⟨hm, code0, R, filt, unm, rw, sent, co, m⟩ := cc
  simp only [Traced, emitted, mutateHeader] at h ⊢
  cases sent <;> simp_all

theorem Traced_run (rw0 : ResponseWriter) (ops : List Op) : ∀ cc : CodeCatcher,
    Traced rw0 cc → Traced rw0 (run cc ops) := by
  induction ops with
  | nil => intro cc h; exact h
  | cons op ops ih =>
    intro cc h
    refine ih (step cc op) ?_
    cases op with
    | writeHeader code => exact Traced_WriteHeader rw0 cc code h
    | write buf => exact Traced_Write rw0 cc buf h
    | flush => exact Traced_Flush rw0 cc h
    | header f => exact Traced_mutateHeader rw0 cc f h

/-! ## Claims on call sequences -/

/-- C15 (the code at the failing input): ranges ["404"], content gating
enabled, the backend calls WriteHeader(404) and then WriteHeader(200).  The
filtered flag raised by 404 stays raised while the recorded code becomes 200,
which lies in no configured range, and 200 is committed to the real sink; the
outcome read by the Orchestrator is filteredAndBodyMatched with code 200. -/
theorem C15_filtered_flag_with_unfiltered_code :
    (run (NewCodeCatcher idleSink [(404, 404)] true [])
        [Op.writeHeader 404, Op.writeHeader 200]).IsFilteredCode = true ∧
    (run (NewCodeCatcher idleSink [(404, 404)] true [])
        [Op.writeHeader 404, Op.writeHeader 200]).IsMatchingBody = true ∧
    (run (NewCodeCatcher idleSink [(404, 404)] true [])
        [Op.writeHeader 404, Op.writeHeader 200]).GetCode = 200 ∧
    inRanges [(404, 404)] (run (NewCodeCatcher idleSink [(404, 404)] true [])
        [Op.writeHeader 404, Op.writeHeader 200]).GetCode = false ∧
    (run (NewCodeCatcher idleSink [(404, 404)] true [])
        [Op.writeHeader 404, Op.writeHeader 200]).responseWriter.calls =
      [SinkCall.writeHeader 200] := by
  decide

/-- C16: on a fresh catcher, after any calls followed by one that resolves a
non-informational status (a non-informational WriteHeader, a Write or a Flush),
IsFilteredCode keeps its value through every further sequence of WriteHeader,
Write, Flush and header-mutation calls; and from any reachable state on, a true
IsFilteredCode stays true and a true headersSent stays true. -/
theorem C16_filter_decision_final (rw : ResponseWriter) (R : HTTPCodeRanges) (co : Bool)
    (m : Bytes) (pre : List Op) (op : Op) (ops : List Op)
    (hop : (∃ c, op = Op.writeHeader c ∧ ¬ (100 ≤ c ∧ c ≤ 199)) ∨ (∃ b, op = Op.write b) ∨
      op = Op.flush) :
    (run (run (NewCodeCatcher rw R co m) (pre ++ [op])) ops).IsFilteredCode =
      (run (NewCodeCatcher rw R co m) (pre ++ [op])).IsFilteredCode ∧
    ((run (NewCodeCatcher rw R co m) pre).IsFilteredCode = true →
      (run (run (NewCodeCatcher rw R co m) pre) (op :: ops)).IsFilteredCode = true) ∧
    ((run (NewCodeCatcher rw R co m) pre).headersSent = true →
      (run (run (NewCodeCatcher rw R co m) pre) (op :: ops)).headersSent = true) := by
  have hu := Undecided_run pre _ (Undecided_new rw R co m)
  have hres := step_resolves _ op hu hop
  have e : run (NewCodeCatcher rw R co m) (pre ++ [op]) =
      step (run (NewCodeCatcher rw R co m) pre) op := by
    rw [run_append]; rfl
  rw [e]
  obtain ⟨r1, _, r3⟩ := run_monotone ops (step (run (NewCodeCatcher rw R co m) pre) op)
  obtain ⟨q1, q2, _⟩ := run_monotone (op :: ops) (run (NewCodeCatcher rw R co m) pre)
  refine ⟨?_, q1, q2⟩
  simp only [IsFilteredCode]
  rcases hres with h | h
  · rw [r1 h, h]
  · exact r3 h

theorem C16_filter_decision_final_witness :
    (run (run (NewCodeCatcher idleSink [(404, 404)] true [79])
        ([Op.writeHeader 103] ++ [Op.writeHeader 404]))
        [Op.writeHeader 200, Op.write [1], Op.flush]).IsFilteredCode =
      (run (NewCodeCatcher idleSink [(404, 404)] true [79])
        ([Op.writeHeader 103] ++ [Op.writeHeader 404])).IsFilteredCode :=
  (C16_filter_decision_final idleSink [(404, 404)] true [79] [Op.writeHeader 103]
    (Op.writeHeader 404) [Op.writeHeader 200, Op.write [1], Op.flush]
    (Or.inl ⟨404, rfl, by decide⟩)).1

/-- C17: in every state of a catcher in which headers are sent, or in which the
code is filtered and content gating is disabled, WriteHeader(code) changes no
field of the catcher and nothing in the real sink, for every integer code. -/
theorem C17_WriteHeader_guard (cc : CodeCatcher) (code : Int)
    (h : cc.headersSent = true ∨ (cc.caughtFilteredCode = true ∧ cc.contentsOnly = false)) :
    cc.WriteHeader code = cc := by
  rcases h with h | ⟨hf, hc⟩
  · exact WriteHeader_of_sent cc code h
  · exact WriteHeader_of_dropping cc code hf hc

theorem C17_WriteHeader_guard_witness :
    ((NewCodeCatcher idleSink [(404, 404)] false []).WriteHeader 404).WriteHeader 103 =
      (NewCodeCatcher idleSink [(404, 404)] false []).WriteHeader 404 :=
  C17_WriteHeader_guard ((NewCodeCatcher idleSink [(404, 404)] false []).WriteHeader 404) 103
    (Or.inr ⟨by decide, by decide⟩)

/-- C18: for informational codes i1..ik with k ≥ 1, on a fresh catcher with
staged headers H over any real sink, after WriteHeader(i1), ..., WriteHeader(ik)
every key of H holds in the sink's header map exactly the values it has in H,
every key absent from H holds what the sink held before, and the sink has
received exactly the status commits i1..ik in order; a following WriteHeader(f)
with f not informational and in no configured range leaves the same header map
and adds the single status commit f. -/
theorem C18_informational_headers_replace (rw : ResponseWriter) (R : HTTPCodeRanges) (co : Bool)
    (m : Bytes) (H : Header) (is : List Int) (f : Int)
    (hk : is ≠ []) (hi : ∀ i ∈ is, 100 ≤ i ∧ i ≤ 199) :
    (∀ k v, H k = some v →
      (run (staged rw R co m H) (is.map Op.writeHeader)).responseWriter.header k = some v) ∧
    (∀ k, H k = none →
      (run (staged rw R co m H) (is.map Op.writeHeader)).responseWriter.header k =
        rw.header k) ∧
    (run (staged rw R co m H) (is.map Op.writeHeader)).responseWriter.calls =
      rw.calls ++ is.map SinkCall.writeHeader ∧
    (¬ (100 ≤ f ∧ f ≤ 199) → inRanges R f = false →
      ((run (staged rw R co m H) (is.map Op.writeHeader)).WriteHeader f).responseWriter.header =
        (run (staged rw R co m H) (is.map Op.writeHeader)).responseWriter.header ∧
      ((run (staged rw R co m H) (is.map Op.writeHeader)).WriteHeader f).responseWriter.calls =
        rw.calls ++ is.map SinkCall.writeHeader ++ [SinkCall.writeHeader f]) := by
  have e := run_informational is hi (staged rw R co m H)
    (by simp [staged, NewCodeCatcher, mutateHeader])
    (by simp [staged, NewCodeCatcher, mutateHeader])
  rw [e]
  simp only [hk, if_false]
  refine ⟨fun k v hv => ?_, fun k hv => ?_, ?_, fun hf hR => ?_⟩
  · simp [staged, NewCodeCatcher, mutateHeader, copyHeader, hv]
  · simp [staged, NewCodeCatcher, mutateHeader, copyHeader, hv]
  · simp [staged, NewCodeCatcher, mutateHeader]
  · have h1 : (decide (f ≥ 100) && decide (f ≤ 199)) = false := by
      simpa using hf
    simp [staged, NewCodeCatcher, mutateHeader, WriteHeader, h1, hR, copyToSink,
      CodeCatcher.Header, ResponseWriter.WriteHeader, copyHeader_idem]

theorem C18_informational_headers_replace_witness :
    (run (staged idleSink [(404, 404)] true []
        (fun k => if k = "Link" then some ["</style.css>"] else none))
      ([100, 103, 103].map Op.writeHeader)).responseWriter.header "Link" =
        some ["</style.css>"] ∧
    (run (staged idleSink [(404, 404)] true []
        (fun k => if k = "Link" then some ["</style.css>"] else none))
      ([100, 103, 103].map Op.writeHeader)).responseWriter.calls =
        idleSink.calls ++ [100, 103, 103].map SinkCall.writeHeader :=
  have h := C18_informational_headers_replace idleSink [(404, 404)] true []
    (fun k => if k = "Link" then some ["</style.css>"] else none) [100, 103, 103] 200
    (by simp) (by decide)
  ⟨h.1 "Link" ["</style.css>"] (by simp), h.2.2.1⟩

/-- C19: for every configuration and every finite sequence of WriteHeader
(informational or not), Write, Flush and header-mutation calls on a fresh
catcher, among the calls the catcher made on the real sink at most one is a
status commit with a code outside 100..199, and every write of body bytes comes
after such a status commit. -/
theorem C19_single_terminal_status (rw : ResponseWriter) (R : HTTPCodeRanges) (co : Bool)
    (m : Bytes) (ops : List Op) :
    terminalCount (emitted rw (run (NewCodeCatcher rw R co m) ops)) ≤ 1 ∧
    committedBeforeBody false (emitted rw (run (NewCodeCatcher rw R co m) ops)) = true := by
  obtain ⟨_, ht, hc, _, _⟩ := Traced_run rw ops _ (Traced_new rw R co m)
  refine ⟨?_, hc⟩
  rw [ht]
  split <;> omega

end Helpers
